import Mathlib

/-!
Verification development for the planning core of `app/core/planning/plan_creation.py`
(outline parser `_parse_outline_to_models` and sprint allocator `_allocate_sprints`)
together with the data model of `app/core/planning/models.py`.

Strings are modelled at the character-list level (`List Char`); Python string
methods used by the source (`splitlines`, `strip`, `lstrip`, `startswith`,
`replace`, `split(".", 1)`, the regex `^\d+\.\s+`) are given explicit
executable models below.  Dates (`datetime.date`) are modelled as `Int` day
numbers; `timedelta(days = k)` is addition of `k`.  The wall-clock read
`dt.date.today()` is modelled as an explicit `today : Int` parameter.
`TimeHorizon` is a `str`-valued enum compared with `==` in the source, so the
horizon parameter is modelled by its underlying string value.
-/

namespace PlanCreation

/-! ### Python string primitives -/

/-- Whitespace for Python `str.strip()` (ASCII whitespace plus the Unicode
space characters Python's `str.isspace` recognises). -/
def pyIsSpace (c : Char) : Bool :=
  c = ' ' || c = '\t' || c = '\n' || c = '\r' || c = '\x0b' || c = '\x0c' ||
  c = '\x1c' || c = '\x1d' || c = '\x1e' || c = '\x85' || c = '\xa0' ||
  c = '\u1680' || ('\u2000' ≤ c && c ≤ '\u200A') || c = '\u2028' || c = '\u2029' ||
  c = '\u202F' || c = '\u205F' || c = '\u3000'

/-- Line terminators recognised by Python `str.splitlines()`. -/
def isLineTerm (c : Char) : Bool :=
  c = '\n' || c = '\r' || c = '\x0b' || c = '\x0c' ||
  c = '\x1c' || c = '\x1d' || c = '\x1e' || c = '\x85' || c = '\u2028' || c = '\u2029'

/-- Model of Python `str.splitlines()`: `"\r\n"` counts as a single break and a
trailing terminator does not produce a final empty line. -/
def pySplitlinesAux : List Char → List Char → List (List Char)
  | [], acc => if acc.isEmpty then [] else [acc.reverse]
  | '\r' :: '\n' :: rest, acc => acc.reverse :: pySplitlinesAux rest []
  | c :: rest, acc =>
    if isLineTerm c then acc.reverse :: pySplitlinesAux rest []
    else pySplitlinesAux rest (c :: acc)

def pySplitlines (s : List Char) : List (List Char) :=
  pySplitlinesAux s []

/-- Python `str.strip()` (no argument): drop leading and trailing whitespace. -/
def pyStrip (l : List Char) : List Char :=
  ((l.dropWhile pyIsSpace).reverse.dropWhile pyIsSpace).reverse

/-- Python `str.lstrip(chars)`: drop leading characters belonging to `chars`. -/
def pyLStrip (chars : String) (l : List Char) : List Char :=
  l.dropWhile (fun c => chars.data.contains c)

/-- Python `str.startswith(p)` on a character list. -/
def startsWith (p : String) (l : List Char) : Bool :=
  p.data.isPrefixOf l

/-- The regex `^\d+\.\s+` of the source, applied with `re.match`:
one or more digits, a dot, then at least one whitespace character. -/
def matchesNumbered (l : List Char) : Bool :=
  let ds := l.takeWhile (fun c => c.isDigit)
  !ds.isEmpty &&
    (match l.drop ds.length with
     | '.' :: c :: _ => pyIsSpace c
     | _ => false)

/-- Python `s.split(".", 1)[1]`: everything after the first dot.  Only called
on lines already matched by `matchesNumbered`, which guarantees a dot. -/
def afterFirstDot (l : List Char) : List Char :=
  (l.dropWhile (fun c => c != '.')).drop 1

/-- Python `str.replace(pat, "")` (remove every occurrence, left to right,
non-overlapping).  Fuel-based so that it reduces definitionally; the fuel
`l.length` always suffices because each step consumes at least one character. -/
def pyReplaceAux (pat : List Char) : Nat → List Char → List Char
  | _, [] => []
  | 0, l => l
  | fuel + 1, c :: rest =>
    if pat.isPrefixOf (c :: rest) then pyReplaceAux pat fuel ((c :: rest).drop pat.length)
    else c :: pyReplaceAux pat fuel rest

def pyReplace (pat : String) (l : List Char) : List Char :=
  pyReplaceAux pat.data l.length l

/-! ### Data model (`app/core/planning/models.py`) -/

/-- `Status(str, Enum)` of `models.py`. -/
inductive Status where
  | planned
  | in_progress
  | done
deriving DecidableEq, Repr

/-- `Priority(str, Enum)` of `models.py`. -/
inductive Priority where
  | high
  | medium
  | low
deriving DecidableEq, Repr

/-- `Task` dataclass.  `estimate` is the size string (`"S"`/`"M"`/`"L"`). -/
structure Task where
  id : String
  story_id : String
  title : String
  description : String
  estimate : String
  status : Status
  labels : List String
deriving DecidableEq, Repr

structure Story where
  id : String
  epic_id : String
  title : String
  description : String
  acceptance_criteria : List String
  priority : Priority
  status : Status
  tasks : List Task
deriving DecidableEq, Repr

structure Epic where
  id : String
  title : String
  description : String
  priority : Priority
  status : Status
  stories : List Story
deriving DecidableEq, Repr

/-- `Sprint` dataclass.  The allocator always sets both dates, modelled as
`Int` day numbers. -/
structure Sprint where
  id : String
  name : String
  start_date : Int
  end_date : Int
  goal : String
  task_ids : List String
deriving DecidableEq, Repr

def defaultSprint : Sprint :=
  { id := "", name := "", start_date := 0, end_date := 0, goal := "", task_ids := [] }

instance : Inhabited Sprint := ⟨defaultSprint⟩

/-- `_generate_id` of the source: `f"{prefix}-{counter}"`. -/
def _generate_id (pre : String) (counter : Nat) : String :=
  pre ++ "-" ++ Nat.repr counter

/-! ### Parser state machine (`_parse_outline_to_models`, lines 144-342)

The Python loop keeps `epics`, `current_epic`, `current_story`,
`collecting_criteria`, `temp_criteria`, `last_line_was_epic_title` and the
three `itertools.count(1)` counters.  `ec`/`sc` hold the *next* value the
epic/story counter would yield (the task counter is not consumed inside the
loop and is threaded through the synthesis phase below). -/

structure PState where
  epics : List Epic
  curEpic : Option Epic
  curStory : Option Story
  collecting : Bool
  tempCriteria : List String
  lastLineWasEpicTitle : Bool
  ec : Nat
  sc : Nat
deriving Repr

def initState : PState :=
  { epics := [], curEpic := none, curStory := none, collecting := false,
    tempCriteria := [], lastLineWasEpicTitle := false, ec := 1, sc := 1 }

/-- The story-closing block of the `EPIC:` and numbered-epic branches
(lines 188-195 and 257-264): flush criteria, commit the story to the current
epic if one is open, clear `current_story` and `collecting_criteria`. -/
def closeStoryClearing (st : PState) : PState :=
  match st.curStory with
  | some s =>
    let s' := { s with acceptance_criteria := st.tempCriteria }
    { st with
      tempCriteria := [],
      curEpic := (match st.curEpic with
        | some e => some { e with stories := e.stories ++ [s'] }
        | none => none),
      curStory := none,
      collecting := false }
  | none => st

/-- The story-closing block of the `STORY:` and `- Story:` branches
(lines 218-223 and 291-296): flush criteria and commit the story to the
current epic if one is open.  `current_story` is overwritten by the caller and
`collecting_criteria` is set separately, exactly as in the source. -/
def closeStoryKeeping (st : PState) : PState :=
  match st.curStory with
  | some s =>
    let s' := { s with acceptance_criteria := st.tempCriteria }
    { st with
      tempCriteria := [],
      curEpic := (match st.curEpic with
        | some e => some { e with stories := e.stories ++ [s'] }
        | none => none) }
  | none => st

/-- One iteration of the line loop (lines 180-331), with the branch ladder in
source order; `first match wins`.  `stripped = raw_line.rstrip().strip()`
collapses to a single `strip` since only `stripped` is used afterwards. -/
def processLine (st : PState) (raw : List Char) : PState :=
  let stripped := pyStrip raw
  if startsWith "EPIC:" stripped then
    let st1 := closeStoryClearing st
    let st2 := match st1.curEpic with
      | some e => { st1 with epics := st1.epics ++ [e] }
      | none => st1
    { st2 with
      curEpic := some { id := _generate_id "EPIC" st2.ec,
                        title := (pyStrip (stripped.drop 5)).asString,
                        description := "", priority := Priority.high,
                        status := Status.planned, stories := [] },
      ec := st2.ec + 1,
      lastLineWasEpicTitle := true }
  else if startsWith "STORY:" stripped then
    let st1 := closeStoryKeeping st
    let st2 := match st1.curEpic with
      | none =>
        { st1 with
          curEpic := some { id := _generate_id "EPIC" st1.ec, title := "General",
                            description := "Auto-created epic for orphan stories.",
                            priority := Priority.medium, status := Status.planned,
                            stories := [] },
          ec := st1.ec + 1 }
      | some _ => st1
    { st2 with
      curStory := some { id := _generate_id "STORY" st2.sc,
                         epic_id := (match st2.curEpic with | some e => e.id | none => ""),
                         title := (pyStrip (stripped.drop 6)).asString,
                         description := "", acceptance_criteria := [],
                         priority := Priority.medium, status := Status.planned,
                         tasks := [] },
      sc := st2.sc + 1,
      collecting := false,
      lastLineWasEpicTitle := false }
  else if matchesNumbered stripped then
    let st1 := closeStoryClearing st
    let st2 := match st1.curEpic with
      | some e => { st1 with epics := st1.epics ++ [e] }
      | none => st1
    { st2 with
      curEpic := some { id := _generate_id "EPIC" st2.ec,
                        title := (pyStrip (afterFirstDot stripped)).asString,
                        description := "", priority := Priority.high,
                        status := Status.planned, stories := [] },
      ec := st2.ec + 1,
      lastLineWasEpicTitle := true }
  else if startsWith "- " stripped && st.curEpic.isSome && st.lastLineWasEpicTitle then
    { st with
      curEpic := (match st.curEpic with
        | some e => some { e with description := (pyStrip (pyLStrip "- " stripped)).asString }
        | none => none),
      lastLineWasEpicTitle := false }
  else if startsWith "- Story:" stripped then
    let st1 := closeStoryKeeping st
    { st1 with
      curStory := some { id := _generate_id "STORY" st1.sc,
                         epic_id := (match st1.curEpic with | some e => e.id | none => ""),
                         title := (pyStrip (pyReplace "- Story:" stripped)).asString,
                         description := "", acceptance_criteria := [],
                         priority := Priority.medium, status := Status.planned,
                         tasks := [] },
      sc := st1.sc + 1,
      collecting := false }
  else if startsWith "Description:" stripped && st.curStory.isSome then
    { st with
      curStory := (match st.curStory with
        | some s => some { s with description := (pyStrip (pyReplace "Description:" stripped)).asString }
        | none => none) }
  else if startsWith "Acceptance criteria:" stripped && st.curStory.isSome then
    { st with collecting := true, tempCriteria := [] }
  else if startsWith "-" stripped && st.collecting && st.curStory.isSome then
    let criterion := pyStrip (pyLStrip "-" stripped)
    if !criterion.isEmpty then { st with tempCriteria := st.tempCriteria ++ [criterion.asString] }
    else st
  else st

/-- The end-of-input close of the still-open story (lines 336-339). -/
def closeEndState (st : PState) : PState :=
  match st.curStory with
  | some s =>
    let s' := { s with acceptance_criteria := st.tempCriteria }
    { st with
      curEpic := (match st.curEpic with
        | some e => some { e with stories := e.stories ++ [s'] }
        | none => none) }
  | none => st

/-- The end-of-input close of the still-open epic (lines 341-342). -/
def closeEnd (st : PState) : List Epic :=
  let st1 := closeEndState st
  match st1.curEpic with
  | some e => st1.epics ++ [e]
  | none => st1.epics

/-! ### Task synthesis (lines 347-377), threading the task counter -/

def synthTasksForStory (s : Story) (c : Nat) : Story × List Task × Nat :=
  let t1 : Task := { id := _generate_id "TASK" c, story_id := s.id,
                     title := "Setup for: " ++ s.title,
                     description := "Create scaffolding, directories, configs, and basic wiring needed for this story.",
                     estimate := "S", status := Status.planned, labels := ["setup"] }
  let t2 : Task := { id := _generate_id "TASK" (c + 1), story_id := s.id,
                     title := "Implement: " ++ s.title,
                     description := "Implement the main logic to satisfy this story.",
                     estimate := "M", status := Status.planned, labels := ["implementation"] }
  let t3 : Task := { id := _generate_id "TASK" (c + 2), story_id := s.id,
                     title := "Validate: " ++ s.title,
                     description := "Test and verify that all acceptance criteria are met.",
                     estimate := "S", status := Status.planned, labels := ["testing"] }
  ({ s with tasks := [t1, t2, t3] }, [t1, t2, t3], c + 3)

def synthTasksForStories : List Story → Nat → List Story × List Task × Nat
  | [], c => ([], [], c)
  | s :: rest, c =>
    let r1 := synthTasksForStory s c
    let r2 := synthTasksForStories rest r1.2.2
    (r1.1 :: r2.1, r1.2.1 ++ r2.2.1, r2.2.2)

def synthTasksForEpics : List Epic → Nat → List Epic × List Task × Nat
  | [], c => ([], [], c)
  | e :: rest, c =>
    let r1 := synthTasksForStories e.stories c
    let r2 := synthTasksForEpics rest r1.2.2
    ({ e with stories := r1.1 } :: r2.1, r1.2.1 ++ r2.2.1, r2.2.2)

/-- `_parse_outline_to_models` (lines 144-415): run the line loop from fresh
counters, perform the final close, synthesize tasks, and substitute the
fallback triple if no epic was produced. -/
def _parse_outline_to_models (outline : String) : List Epic × List Task :=
  let st := (pySplitlines outline.data).foldl processLine initState
  let epics0 := closeEnd st
  let syn := synthTasksForEpics epics0 1
  if syn.1.isEmpty then
    let feId := _generate_id "EPIC" st.ec
    let fsId := _generate_id "STORY" st.sc
    let ftId := _generate_id "TASK" syn.2.2
    let ft : Task := { id := ftId, story_id := fsId,
                       title := "Draft initial project structure",
                       description := "Manually define epics, stories, and tasks based on the vision.",
                       estimate := "M", status := Status.planned, labels := ["fallback"] }
    let fs : Story := { id := fsId, epic_id := feId, title := "Create initial project plan",
                        description := "As a user, I want an initial project plan from my vision.",
                        acceptance_criteria := ["Plan has at least one epic, story, and task."],
                        priority := Priority.medium, status := Status.planned, tasks := [ft] }
    let fe : Epic := { id := feId, title := "Initial Project Planning",
                       description := "Fallback epic generated when outline parsing fails.",
                       priority := Priority.medium, status := Status.planned, stories := [fs] }
    ([fe], [ft])
  else (syn.1, syn.2.1)

/-! ### Sprint allocator (`_allocate_sprints`, lines 422-534) -/

/-- `_estimate_number_of_sprints`; the horizon is the enum's string value. -/
def _estimate_number_of_sprints (time_horizon : String) : Nat :=
  if time_horizon = "month" then 2
  else if time_horizon = "quarter" then 6
  else if time_horizon = "half_year" then 12
  else if time_horizon = "year" then 24
  else 4

/-- The sprint-construction loop (lines 449-461): sprint `i` (0-indexed)
starts at `today + i * 14` and ends 13 days later. -/
def mkSprints (total : Nat) (today : Int) : List Sprint :=
  (List.range total).map (fun i =>
    { id := _generate_id "SPRINT" (i + 1), name := "Sprint " ++ Nat.repr (i + 1),
      start_date := today + 14 * (i : Int), end_date := today + 14 * (i : Int) + 13,
      goal := "", task_ids := [] })

def addTaskId (sp : Sprint) (tid : String) : Sprint :=
  { sp with task_ids := sp.task_ids ++ [tid] }

/-- The bucketing loop (lines 475-480): append each task id to the active
sprint, advancing after the bucket holds 5 ids unless it is the last sprint. -/
def assignTasks : List Task → List Sprint → Nat → Nat → List Sprint
  | [], ss, _, _ => ss
  | t :: ts, ss, i, total =>
    let ss' := ss.set i (addTaskId (ss.getD i defaultSprint) t.id)
    let i' := if 5 ≤ (ss'.getD i defaultSprint).task_ids.length ∧ i < total - 1 then i + 1 else i
    assignTasks ts ss' i' total

def allStories (epics : List Epic) : List Story :=
  (epics.map Epic.stories).flatten

/-- `story_by_id` dict lookup (lines 483-489); later insertions win, hence the
search over the reversed insertion order. -/
def storyById (epics : List Epic) (sid : String) : Option Story :=
  (allStories epics).reverse.find? (fun s => s.id == sid)

/-- `epic_by_id` dict lookup. -/
def epicById (epics : List Epic) (eid : String) : Option Epic :=
  epics.reverse.find? (fun e => e.id == eid)

/-- Lines 492-494: first line of the stripped vision text, `"this project"`
when blank, truncated to 77 characters plus `"..."` when longer than 80. -/
def firstLineOfVision (vision_text : String) : String :=
  let st := pyStrip vision_text.data
  if st.isEmpty then "this project"
  else
    let fl := (pySplitlines st).headD []
    if 80 < fl.length then (fl.take 77).asString ++ "..." else fl.asString

/-- Lines 498-506: titles of epics reachable from the sprint's bucketed
tasks, in task order. -/
def epicTitlesInSprint (epics : List Epic) (tasks : List Task) (sp : Sprint) : List String :=
  tasks.foldl (fun acc t =>
    if t.id ∈ sp.task_ids then
      match storyById epics t.story_id with
      | some s =>
        match epicById epics s.epic_id with
        | some e => acc ++ [e.title]
        | none => acc
      | none => acc
    else acc) []

/-- Lines 509-514: deduplicate preserving first-seen order (the `seen` set
always holds exactly the members of the accumulated list). -/
def dedupeKeepOrder (titles : List String) : List String :=
  titles.foldl (fun acc t => if t ∈ acc then acc else acc ++ [t]) []

/-- Lines 516-523: the `epic_list_str` formatting. -/
def epicListStr (uniqueTitles : List String) : String :=
  if !uniqueTitles.isEmpty then
    if 3 < uniqueTitles.length then String.intercalate ", " (uniqueTitles.take 3) ++ ", and others"
    else String.intercalate ", " uniqueTitles
  else "key epics"

/-- Lines 525-532: the four position-indexed goal templates. -/
def goalForSprint (epics : List Epic) (tasks : List Task) (first_line : String)
    (i : Nat) (sp : Sprint) : String :=
  let els := epicListStr (dedupeKeepOrder (epicTitlesInSprint epics tasks sp))
  if i = 0 then "Foundations for '" ++ first_line ++ "'. Focus on " ++ els ++ "."
  else if i = 1 then "Core implementation for " ++ els ++ "."
  else if i = 2 then "Refinement and validation for " ++ els ++ "."
  else "Ongoing improvements across " ++ els ++ "."

/-- The goal-setting loop over `enumerate(sprints)` (lines 497-532). -/
def setGoals (epics : List Epic) (tasks : List Task) (first_line : String) :
    List Sprint → Nat → List Sprint
  | [], _ => []
  | sp :: rest, i =>
    { sp with goal := goalForSprint epics tasks first_line i sp } ::
      setGoals epics tasks first_line rest (i + 1)

/-- Lines 465-471: the generic goals used when the task list is empty. -/
def genericGoal (i : Nat) : String :=
  if i = 0 then "Initial setup and discovery."
  else if i = 1 then "Core implementation."
  else "Ongoing improvements."

def setGenericGoals : List Sprint → Nat → List Sprint
  | [], _ => []
  | sp :: rest, i => { sp with goal := genericGoal i } :: setGenericGoals rest (i + 1)

/-- `_allocate_sprints` (lines 434-534) with the `dt.date.today()` read made
an explicit `today` parameter. -/
def _allocate_sprints (epics : List Epic) (tasks : List Task) (time_horizon : String)
    (vision_text : String) (today : Int) : List Sprint :=
  let total := _estimate_number_of_sprints time_horizon
  if total = 0 then []
  else
    let sprints := mkSprints total today
    if tasks.isEmpty then setGenericGoals sprints 0
    else
      let bucketed := assignTasks tasks sprints 0 total
      setGoals epics tasks (firstLineOfVision vision_text) bucketed 0

/-! ### Claim-side definitions (statements of the specification) -/

/-- A line recognised as a header by any of the four header branches of the
parser: `EPIC:`, `STORY:`, a numbered epic, or `- Story:`. -/
def isHeaderLine (raw : List Char) : Bool :=
  startsWith "EPIC:" (pyStrip raw) || startsWith "STORY:" (pyStrip raw) ||
  matchesNumbered (pyStrip raw) || startsWith "- Story:" (pyStrip raw)

/-- The deterministic fallback triple of the specification (fresh counters). -/
def fallbackTask : Task :=
  { id := "TASK-1", story_id := "STORY-1", title := "Draft initial project structure",
    description := "Manually define epics, stories, and tasks based on the vision.",
    estimate := "M", status := Status.planned, labels := ["fallback"] }

def fallbackStory : Story :=
  { id := "STORY-1", epic_id := "EPIC-1", title := "Create initial project plan",
    description := "As a user, I want an initial project plan from my vision.",
    acceptance_criteria := ["Plan has at least one epic, story, and task."],
    priority := Priority.medium, status := Status.planned, tasks := [fallbackTask] }

def fallbackEpic : Epic :=
  { id := "EPIC-1", title := "Initial Project Planning",
    description := "Fallback epic generated when outline parsing fails.",
    priority := Priority.medium, status := Status.planned, stories := [fallbackStory] }

def fallbackTriple : List Epic × List Task := ([fallbackEpic], [fallbackTask])

/-- The task shape the specification demands for every parsed story:
Setup/Implement/Validate titles, setup/implementation/testing labels,
small/medium/small estimates, in that order. -/
def storyTasksShape (s : Story) : Prop :=
  s.tasks.map Task.title =
    ["Setup for: " ++ s.title, "Implement: " ++ s.title, "Validate: " ++ s.title] ∧
  s.tasks.map Task.labels = [["setup"], ["implementation"], ["testing"]] ∧
  s.tasks.map Task.estimate = ["S", "M", "S"]

/-- Number of lines whose stripped form starts with `EPIC:`. -/
def countEpicLines (outline : String) : Nat :=
  ((pySplitlines outline.data).filter (fun l => startsWith "EPIC:" (pyStrip l))).length

/-- A tagged-dialect header line. -/
def isTaggedHeader (l : List Char) : Bool :=
  startsWith "EPIC:" (pyStrip l) || startsWith "STORY:" (pyStrip l)

/-- `1` iff the first tagged header of the lines is a `STORY:` line (which
forces the auto-created placeholder epic titled `General`). -/
def gLead (lines : List (List Char)) : Nat :=
  match lines.find? isTaggedHeader with
  | some l => if startsWith "STORY:" (pyStrip l) then 1 else 0
  | none => 0

/-- Number of epics alive in a parser state (committed plus open). -/
def epicCount (st : PState) : Nat :=
  st.epics.length + st.curEpic.toList.length

/-- `EPIC:` lines among a list of raw lines. -/
def countELines (lines : List (List Char)) : Nat :=
  (lines.filter (fun l => startsWith "EPIC:" (pyStrip l))).length

/-- The stories already committed to a closed or the currently open epic. -/
def committedStories (st : PState) : List Story :=
  (st.epics.map Epic.stories).flatten ++
    (match st.curEpic with | some e => e.stories | none => [])

/-- The dates of a sprint, for stating date-preservation facts. -/
def sprintDates (sp : Sprint) : Int × Int := (sp.start_date, sp.end_date)

/-- The specification's sprint-2 goal template (`Refinement and validation
for {epics}.`), as a predicate on goal strings. -/
def refinementPhrased (s : String) : Prop :=
  ∃ els : String, s = "Refinement and validation for " ++ els ++ "."

/-- All epic identifiers created so far, in creation order: the committed
epics followed by the currently open one. -/
def epicIdsOf (st : PState) : List String :=
  (st.epics ++ st.curEpic.toList).map Epic.id

/-- All story identifiers still reachable, in creation order: the committed
stories followed by the currently open story. -/
def storyIdsOf (st : PState) : List String :=
  (committedStories st ++ st.curStory.toList).map Story.id

/-- Loop invariant of the parser state machine: the epic counter has emitted
exactly the ids `EPIC-1 .. EPIC-(ec-1)` and all of them are still reachable
in order; reachable story ids are strictly increasing and below the story
counter; nothing can be committed without an epic; and every reachable
story's `epic_id` back-reference equals the id of the epic that holds it. -/
structure LoopInv (st : PState) : Prop where
  ecPos : 1 ≤ st.ec
  scPos : 1 ≤ st.sc
  epicIds : epicIdsOf st = (List.range' 1 (st.ec - 1)).map (_generate_id "EPIC")
  noEpic : st.curEpic = none → st.epics = []
  storyNums : ∃ nums : List Nat,
    storyIdsOf st = nums.map (_generate_id "STORY")
    ∧ nums.Chain' (· < ·) ∧ ∀ n ∈ nums, 1 ≤ n ∧ n < st.sc
  refsCommitted : ∀ e ∈ st.epics, ∀ s ∈ e.stories, s.epic_id = e.id
  refsCur : ∀ e, st.curEpic = some e → ∀ s ∈ e.stories, s.epic_id = e.id
  refsStory : ∀ e s, st.curEpic = some e → st.curStory = some s → s.epic_id = e.id

/-- Reference decimal-digit function used to prove `Nat.repr` injective. -/
def decDigits (n : Nat) : List Char :=
  if _h : n < 10 then [Nat.digitChar n]
  else
    have : n / 10 < n := Nat.div_lt_self (by omega) (by omega)
    decDigits (n / 10) ++ [Nat.digitChar (n % 10)]

/-- Concrete distinct-id task list used to witness the allocation claims. -/
def nineTasks : List Task :=
  (List.range' 1 9).map (fun n =>
    { id := _generate_id "TASK" n, story_id := "", title := "", description := "",
      estimate := "M", status := Status.planned, labels := [] })

/-- Concrete open story used to exercise the acceptance-criteria transitions. -/
def collectingStory : Story :=
  { id := "STORY-1", epic_id := "EPIC-1", title := "S", description := "",
    acceptance_criteria := [], priority := Priority.medium, status := Status.planned,
    tasks := [] }

/-- Concrete parser state in the middle of an acceptance-criteria block: a
story is open under an epic, `collecting_criteria` is set, and one criterion
`"a"` has been accumulated. -/
def collectingState : PState :=
  { epics := [],
    curEpic := some { id := "EPIC-1", title := "E", description := "desc",
                      priority := Priority.high, status := Status.planned,
                      stories := [] },
    curStory := some collectingStory,
    collecting := true, tempCriteria := ["a"], lastLineWasEpicTitle := false,
    ec := 2, sc := 2 }

/-! ### Identifier rendering: `Nat.repr` is injective -/

theorem digitChar_injOn :
    ∀ a, a < 10 → ∀ b, b < 10 → Nat.digitChar a = Nat.digitChar b → a = b := by
  decide

theorem decDigits_ne_nil (n : Nat) : decDigits n ≠ [] := by
  rw [decDigits]
  split <;> simp

theorem decDigits_eq_small {n : Nat} (h : n < 10) :
    decDigits n = [Nat.digitChar n] := by
  rw [decDigits]
  exact dif_pos h

theorem decDigits_eq_large {n : Nat} (h : ¬ n < 10) :
    decDigits n = decDigits (n / 10) ++ [Nat.digitChar (n % 10)] := by
  rw [decDigits]
  rw [dif_neg h]

theorem toDigitsCore_eq_decDigits :
    ∀ (fuel n : Nat) (ds : List Char), n < fuel →
      Nat.toDigitsCore 10 fuel n ds = decDigits n ++ ds := by
  intro fuel
  induction fuel with
  | zero => intro n ds h; omega
  | succ f ih =>
    intro n ds h
    show (if n / 10 = 0 then Nat.digitChar (n % 10) :: ds
          else Nat.toDigitsCore 10 f (n / 10) (Nat.digitChar (n % 10) :: ds)) = _
    by_cases h0 : n / 10 = 0
    · have hn : n < 10 := by omega
      rw [if_pos h0, decDigits_eq_small hn, Nat.mod_eq_of_lt hn]
      simp
    · have hlt : n / 10 < f := by omega
      rw [if_neg h0, ih _ _ hlt, decDigits_eq_large (by omega : ¬ n < 10)]
      simp

theorem decDigits_inj : ∀ a b : Nat, decDigits a = decDigits b → a = b := by
  intro a
  induction a using Nat.strong_induction_on with
  | _ a ih =>
    intro b h
    by_cases ha : a < 10 <;> by_cases hb : b < 10
    · rw [decDigits_eq_small ha, decDigits_eq_small hb] at h
      exact digitChar_injOn a ha b hb (by simpa using h)
    · exfalso
      rw [decDigits_eq_small ha, decDigits_eq_large hb] at h
      cases hdd : decDigits (b / 10) with
      | nil => exact decDigits_ne_nil _ hdd
      | cons x xs =>
        rw [hdd] at h
        simp at h
    · exfalso
      rw [decDigits_eq_large ha, decDigits_eq_small hb] at h
      cases hdd : decDigits (a / 10) with
      | nil => exact decDigits_ne_nil _ hdd
      | cons x xs =>
        rw [hdd] at h
        simp at h
    · rw [decDigits_eq_large ha, decDigits_eq_large hb] at h
      have h' := congrArg List.reverse h
      simp only [List.reverse_append, List.reverse_cons, List.reverse_nil,
        List.nil_append, List.singleton_append, List.cons.injEq] at h'
      obtain ⟨h1, h2⟩ := h'
      have hm : a % 10 = b % 10 :=
        digitChar_injOn _ (Nat.mod_lt _ (by omega)) _ (Nat.mod_lt _ (by omega)) h1
      have hd : a / 10 = b / 10 :=
        ih (a / 10) (Nat.div_lt_self (by omega) (by omega)) (b / 10)
          (List.reverse_inj.mp h2)
      omega

theorem nat_repr_eq_decDigits (n : Nat) : Nat.repr n = (decDigits n).asString := by
  show (Nat.toDigits 10 n).asString = _
  unfold Nat.toDigits
  rw [toDigitsCore_eq_decDigits _ _ _ (Nat.lt_succ_self n), List.append_nil]

theorem nat_repr_inj {a b : Nat} (h : Nat.repr a = Nat.repr b) : a = b := by
  rw [nat_repr_eq_decDigits, nat_repr_eq_decDigits] at h
  have hdata : decDigits a = decDigits b := congrArg String.data h
  exact decDigits_inj _ _ hdata

theorem generate_id_inj (p : String) {a b : Nat}
    (h : _generate_id p a = _generate_id p b) : a = b := by
  unfold _generate_id at h
  have h2 := congrArg String.data h
  simp only [String.data_append, List.append_assoc] at h2
  have h3 := List.append_cancel_left (List.append_cancel_left h2)
  exact nat_repr_inj (String.ext h3)

theorem generate_id_ne_empty (p : String) (n : Nat) : _generate_id p n ≠ "" := by
  intro h
  have h2 : (p ++ "-" ++ Nat.repr n).data = [] := congrArg String.data h
  rw [String.data_append, String.data_append] at h2
  rcases List.append_eq_nil.mp h2 with ⟨h3, -⟩
  rcases List.append_eq_nil.mp h3 with ⟨-, h5⟩
  exact (by decide : ¬ (("-" : String).data = [])) h5

/-! ### The line loop ignores non-header lines when nothing is open -/

theorem processLine_nonheader (st : PState) (raw : List Char)
    (hE : st.curEpic = none) (hS : st.curStory = none)
    (hh : isHeaderLine raw = false) : processLine st raw = st := by
  unfold isHeaderLine at hh
  simp only [Bool.or_eq_false_iff] at hh
  obtain ⟨⟨⟨h1, h2⟩, h3⟩, h4⟩ := hh
  simp [processLine, h1, h2, h3, h4, hE, hS]

theorem foldl_processLine_id :
    ∀ (lines : List (List Char)) (st : PState),
      st.curEpic = none → st.curStory = none →
      (∀ l ∈ lines, isHeaderLine l = false) →
      lines.foldl processLine st = st := by
  intro lines
  induction lines with
  | nil => intro st _ _ _; rfl
  | cons l ls ih =>
    intro st hE hS hh
    rw [List.foldl_cons, processLine_nonheader st l hE hS (hh l (by simp))]
    exact ih st hE hS (fun x hx => hh x (by simp [hx]))

/-- C1: for any input whose lines contain no recognised header line
(`EPIC:`, `STORY:`, numbered epic, `- Story:`), `_parse_outline_to_models`
returns (totally, never failing) exactly the deterministic fallback triple:
one epic titled "Initial Project Planning", one story titled "Create initial
project plan", one task titled "Draft initial project structure". -/
theorem parse_no_headers_gives_fallback (outline : String)
    (h : ∀ l ∈ pySplitlines outline.data, isHeaderLine l = false) :
    _parse_outline_to_models outline = fallbackTriple := by
  unfold _parse_outline_to_models
  rw [foldl_processLine_id _ _ rfl rfl h]
  rfl

theorem parse_no_headers_gives_fallback_witness :
    (∀ l ∈ pySplitlines ("garbage text with no structure" : String).data,
        isHeaderLine l = false)
    ∧ _parse_outline_to_models "garbage text with no structure" = fallbackTriple :=
  ⟨by decide, parse_no_headers_gives_fallback _ (by decide)⟩

/-! ### Task synthesis facts -/

theorem synthStories_mem_shape :
    ∀ (ss : List Story) (c : Nat) (s : Story),
      s ∈ (synthTasksForStories ss c).1 → storyTasksShape s := by
  intro ss
  induction ss with
  | nil => intro c s hs; simp [synthTasksForStories] at hs
  | cons s0 rest ih =>
    intro c s hs
    simp only [synthTasksForStories, List.mem_cons] at hs
    rcases hs with h | h
    · subst h
      exact ⟨rfl, rfl, rfl⟩
    · exact ih _ _ h

theorem synthEpics_mem_shape :
    ∀ (es : List Epic) (c : Nat) (e : Epic) (s : Story),
      e ∈ (synthTasksForEpics es c).1 → s ∈ e.stories → storyTasksShape s := by
  intro es
  induction es with
  | nil => intro c e s he _; simp [synthTasksForEpics] at he
  | cons e0 rest ih =>
    intro c e s he hs
    simp only [synthTasksForEpics, List.mem_cons] at he
    rcases he with h | h
    · subst h
      exact synthStories_mem_shape _ _ _ hs
    · exact ih _ _ _ h hs

theorem synthStories_tasks_eq :
    ∀ (ss : List Story) (c : Nat),
      (synthTasksForStories ss c).2.1
        = ((synthTasksForStories ss c).1.map Story.tasks).flatten := by
  intro ss
  induction ss with
  | nil => intro c; rfl
  | cons s0 rest ih =>
    intro c
    simp only [synthTasksForStories, List.map_cons, List.flatten_cons]
    rw [ih]
    rfl

theorem synthEpics_tasks_eq :
    ∀ (es : List Epic) (c : Nat),
      (synthTasksForEpics es c).2.1
        = ((synthTasksForEpics es c).1.map
            (fun e => (e.stories.map Story.tasks).flatten)).flatten := by
  intro es
  induction es with
  | nil => intro c; rfl
  | cons e0 rest ih =>
    intro c
    simp only [synthTasksForEpics, List.map_cons, List.flatten_cons]
    rw [ih, synthStories_tasks_eq]

/-- C2 (amended): the returned task list is exactly the concatenation of the
stories' task lists (tasks arise no other way), and every story in the result
carries the three synthesized Setup/Implement/Validate tasks — except the
fallback result, whose single story carries exactly the one fallback task. -/
theorem stories_own_three_tasks (outline : String) :
    ((_parse_outline_to_models outline).2
      = (((_parse_outline_to_models outline).1.map
          (fun e => (e.stories.map Story.tasks).flatten)).flatten))
    ∧ ∀ e ∈ (_parse_outline_to_models outline).1, ∀ s ∈ e.stories,
        storyTasksShape s ∨
          (e.title = "Initial Project Planning" ∧
           s.tasks.map Task.title = ["Draft initial project structure"]) := by
  unfold _parse_outline_to_models
  simp only []
  split
  · constructor
    · rfl
    · intro e he s hs
      simp only [List.mem_singleton] at he
      subst he
      simp only [List.mem_singleton] at hs
      subst hs
      right
      exact ⟨rfl, rfl⟩
  · constructor
    · exact synthEpics_tasks_eq _ _
    · intro e he s hs
      left
      exact synthEpics_mem_shape _ _ _ _ he hs

theorem stories_own_three_tasks_witness :
    ((_parse_outline_to_models "EPIC: A\n  STORY: B").2
      = (((_parse_outline_to_models "EPIC: A\n  STORY: B").1.map
          (fun e => (e.stories.map Story.tasks).flatten)).flatten))
    ∧ (storyTasksShape
        ((((_parse_outline_to_models "EPIC: A\n  STORY: B").1.get ⟨0, by decide⟩).stories).get
          ⟨0, by decide⟩) ∨
        (((_parse_outline_to_models "EPIC: A\n  STORY: B").1.get ⟨0, by decide⟩).title
            = "Initial Project Planning" ∧
         ((((_parse_outline_to_models "EPIC: A\n  STORY: B").1.get ⟨0, by decide⟩).stories).get
            ⟨0, by decide⟩).tasks.map Task.title = ["Draft initial project structure"])) :=
  ⟨(stories_own_three_tasks _).1,
   (stories_own_three_tasks _).2 _ (List.get_mem _ _ _) _ (List.get_mem _ _ _)⟩

/-- C2 counterexample to the claim as stated: on an empty outline the
(fallback) result contains a story owning exactly one task, not three. -/
theorem stories_own_three_tasks_counterexample :
    ((_parse_outline_to_models "").1.map
      (fun e => e.stories.map (fun s => s.tasks.length))) = [[1]] := by
  rfl

/-- C9: the core is deterministic — parsing equal outlines yields equal
results (the id counters are created afresh inside each call and leak no
state), and with the wall-clock day fixed the allocator is a function of its
arguments. -/
theorem core_deterministic :
    (∀ s t : String, s = t → _parse_outline_to_models s = _parse_outline_to_models t)
    ∧ (∀ (epics : List Epic) (tasks : List Task) (h v : String) (d₁ d₂ : Int),
        d₁ = d₂ →
          _allocate_sprints epics tasks h v d₁ = _allocate_sprints epics tasks h v d₂) := by
  constructor
  · intro s t hst
    rw [hst]
  · intro epics tasks h v d₁ d₂ hd
    rw [hd]

theorem core_deterministic_witness :
    _parse_outline_to_models "EPIC: A" = _parse_outline_to_models "EPIC: A"
    ∧ _allocate_sprints [] [] "quarter" "v" 0 = _allocate_sprints [] [] "quarter" "v" 0 :=
  ⟨core_deterministic.1 "EPIC: A" "EPIC: A" rfl,
   core_deterministic.2 [] [] "quarter" "v" 0 0 rfl⟩

/-! ### Allocator bookkeeping lemmas -/

theorem length_setGenericGoals :
    ∀ (ss : List Sprint) (i : Nat), (setGenericGoals ss i).length = ss.length := by
  intro ss
  induction ss with
  | nil => intro i; rfl
  | cons s r ih => intro i; simp [setGenericGoals, ih]

theorem length_setGoals (e : List Epic) (t : List Task) (fl : String) :
    ∀ (ss : List Sprint) (i : Nat), (setGoals e t fl ss i).length = ss.length := by
  intro ss
  induction ss with
  | nil => intro i; rfl
  | cons s r ih => intro i; simp [setGoals, ih]

theorem length_assignTasks :
    ∀ (ts : List Task) (ss : List Sprint) (i total : Nat),
      (assignTasks ts ss i total).length = ss.length := by
  intro ts
  induction ts with
  | nil => intro ss i total; rfl
  | cons t ts ih =>
    intro ss i total
    simp only [assignTasks]
    rw [ih, List.length_set]

theorem length_mkSprints (total : Nat) (today : Int) :
    (mkSprints total today).length = total := by
  simp [mkSprints]

theorem dates_setGenericGoals :
    ∀ (ss : List Sprint) (i : Nat),
      (setGenericGoals ss i).map sprintDates = ss.map sprintDates := by
  intro ss
  induction ss with
  | nil => intro i; rfl
  | cons s r ih => intro i; simp [setGenericGoals, ih, sprintDates]

theorem dates_setGoals (e : List Epic) (t : List Task) (fl : String) :
    ∀ (ss : List Sprint) (i : Nat),
      (setGoals e t fl ss i).map sprintDates = ss.map sprintDates := by
  intro ss
  induction ss with
  | nil => intro i; rfl
  | cons s r ih => intro i; simp [setGoals, ih, sprintDates]

theorem tids_setGoals (e : List Epic) (t : List Task) (fl : String) :
    ∀ (ss : List Sprint) (i : Nat),
      (setGoals e t fl ss i).map Sprint.task_ids = ss.map Sprint.task_ids := by
  intro ss
  induction ss with
  | nil => intro i; rfl
  | cons s r ih => intro i; simp [setGoals, ih]

theorem dates_set_addTaskId :
    ∀ (ss : List Sprint) (i : Nat) (tid : String),
      (ss.set i (addTaskId (ss.getD i defaultSprint) tid)).map sprintDates
        = ss.map sprintDates := by
  intro ss
  induction ss with
  | nil => intro i tid; rfl
  | cons s r ih =>
    intro i tid
    cases i with
    | zero => simp [addTaskId, sprintDates]
    | succ j => simpa using ih j tid

theorem dates_assignTasks :
    ∀ (ts : List Task) (ss : List Sprint) (i total : Nat),
      (assignTasks ts ss i total).map sprintDates = ss.map sprintDates := by
  intro ts
  induction ts with
  | nil => intro ss i total; rfl
  | cons t ts ih =>
    intro ss i total
    simp only [assignTasks]
    rw [ih, dates_set_addTaskId]

theorem dates_mkSprints (total : Nat) (today : Int) :
    (mkSprints total today).map sprintDates
      = (List.range total).map
          (fun i : Nat => (today + 14 * (i : Int), today + 14 * (i : Int) + 13)) := by
  simp only [mkSprints, List.map_map]
  rfl

theorem estimate_pos (h : String) : 0 < _estimate_number_of_sprints h := by
  unfold _estimate_number_of_sprints
  repeat' split
  all_goals omega

theorem getElem_map_eq {α β γ : Type _} (f : α → β) (g : γ → β) {l : List α} {l' : List γ}
    (h : l.map f = l'.map g) (i : Nat) (hi : i < l.length) (hi' : i < l'.length) :
    f (l.get ⟨i, hi⟩) = g (l'.get ⟨i, hi'⟩) := by
  have h1 : (l.map f)[i]? = (l'.map g)[i]? := by rw [h]
  rw [List.getElem?_map, List.getElem?_map, List.getElem?_eq_getElem hi,
    List.getElem?_eq_getElem hi'] at h1
  simp only [Option.map_some'] at h1
  simpa [List.get_eq_getElem] using h1

theorem dates_allocate (epics : List Epic) (tasks : List Task)
    (horizon vision : String) (today : Int) :
    (_allocate_sprints epics tasks horizon vision today).map sprintDates
      = (List.range (_estimate_number_of_sprints horizon)).map
          (fun i : Nat => (today + 14 * (i : Int), today + 14 * (i : Int) + 13)) := by
  unfold _allocate_sprints
  simp only []
  split
  · rename_i h0
    rw [h0]
    rfl
  · split
    · rw [dates_setGenericGoals, dates_mkSprints]
    · rw [dates_setGoals, dates_assignTasks, dates_mkSprints]

theorem length_allocate (epics : List Epic) (tasks : List Task)
    (horizon vision : String) (today : Int) :
    (_allocate_sprints epics tasks horizon vision today).length
      = _estimate_number_of_sprints horizon := by
  have h := congrArg List.length (dates_allocate epics tasks horizon vision today)
  simpa using h

/-- C6: the allocator returns exactly the fixed-lookup number of sprints
(month 2, quarter 6, half_year 12, year 24, anything else 4 — never an
error), sprint `i` starts `today + 14 i` and ends 13 days later, and adjacent
windows are contiguous: sprint `i+1` starts the day after sprint `i` ends. -/
theorem allocate_sprint_windows (epics : List Epic) (tasks : List Task)
    (horizon vision : String) (today : Int) :
    ((_allocate_sprints epics tasks horizon vision today).length
        = _estimate_number_of_sprints horizon)
    ∧ (_estimate_number_of_sprints "month" = 2 ∧ _estimate_number_of_sprints "quarter" = 6
        ∧ _estimate_number_of_sprints "half_year" = 12 ∧ _estimate_number_of_sprints "year" = 24
        ∧ ∀ h : String, h ≠ "month" → h ≠ "quarter" → h ≠ "half_year" → h ≠ "year" →
            _estimate_number_of_sprints h = 4)
    ∧ (∀ i (hi : i < (_allocate_sprints epics tasks horizon vision today).length),
        ((_allocate_sprints epics tasks horizon vision today).get ⟨i, hi⟩).start_date
            = today + 14 * (i : Int)
          ∧ ((_allocate_sprints epics tasks horizon vision today).get ⟨i, hi⟩).end_date
            = today + 14 * (i : Int) + 13)
    ∧ (∀ i (hi : i + 1 < (_allocate_sprints epics tasks horizon vision today).length),
        ((_allocate_sprints epics tasks horizon vision today).get ⟨i + 1, hi⟩).start_date
          = ((_allocate_sprints epics tasks horizon vision today).get
              ⟨i, Nat.lt_of_succ_lt hi⟩).end_date + 1) := by
  have hdates : ∀ i (hi : i < (_allocate_sprints epics tasks horizon vision today).length),
      ((_allocate_sprints epics tasks horizon vision today).get ⟨i, hi⟩).start_date
          = today + 14 * (i : Int)
        ∧ ((_allocate_sprints epics tasks horizon vision today).get ⟨i, hi⟩).end_date
          = today + 14 * (i : Int) + 13 := by
    intro i hi
    have hi' : i < (List.range (_estimate_number_of_sprints horizon)).length := by
      rw [List.length_range]
      rw [length_allocate] at hi
      exact hi
    have h := getElem_map_eq sprintDates
      (fun i : Nat => (today + 14 * (i : Int), today + 14 * (i : Int) + 13))
      (dates_allocate epics tasks horizon vision today) i hi hi'
    rw [show (List.range (_estimate_number_of_sprints horizon)).get ⟨i, hi'⟩ = i by
      simp [List.get_eq_getElem]] at h
    exact ⟨congrArg Prod.fst h, congrArg Prod.snd h⟩
  refine ⟨length_allocate epics tasks horizon vision today, ⟨rfl, rfl, rfl, rfl, ?_⟩, hdates, ?_⟩
  · intro h h1 h2 h3 h4
    unfold _estimate_number_of_sprints
    rw [if_neg h1, if_neg h2, if_neg h3, if_neg h4]
  · intro i hi
    have ha := (hdates (i + 1) hi).1
    have hb := (hdates i (Nat.lt_of_succ_lt hi)).2
    rw [ha, hb]
    have hc : ((i + 1 : Nat) : Int) = (i : Int) + 1 := by push_cast; ring
    rw [hc]
    ring

theorem allocate_sprint_windows_witness :
    (0 + 1 < (_allocate_sprints [] [] "quarter" "v" (100 : Int)).length)
    ∧ ((_allocate_sprints [] [] "quarter" "v" (100 : Int)).get ⟨1, by decide⟩).start_date
        = ((_allocate_sprints [] [] "quarter" "v" (100 : Int)).get ⟨0, by decide⟩).end_date + 1 :=
  ⟨by decide,
   by
    have h := (allocate_sprint_windows [] [] "quarter" "v" (100 : Int)).2.2.2 0 (by decide)
    simpa using h⟩

/-! ### Task bucketing: partition of the task identifiers -/

theorem getD_append_cons {α : Type _} (l₁ : List α) (a : α) (l₂ : List α) (d : α) :
    (l₁ ++ a :: l₂).getD l₁.length d = a := by
  induction l₁ with
  | nil => rfl
  | cons x xs ih => simpa using ih

theorem set_append_cons {α : Type _} (l₁ : List α) (a : α) (l₂ : List α) (v : α) :
    (l₁ ++ a :: l₂).set l₁.length v = l₁ ++ v :: l₂ := by
  induction l₁ with
  | nil => rfl
  | cons x xs ih => simp [ih]

theorem flatten_eq_nil_of_all_nil {α : Type _} :
    ∀ (L : List (List α)), (∀ l ∈ L, l = []) → L.flatten = [] := by
  intro L
  induction L with
  | nil => intro _; rfl
  | cons l ls ih =>
    intro h
    rw [List.flatten_cons, h l (by simp), ih (fun x hx => h x (by simp [hx]))]
    rfl

theorem assign_tids_flatten :
    ∀ (ts : List Task) (done : List Sprint) (bucket : Sprint) (rest : List Sprint) (total : Nat),
      total = done.length + 1 + rest.length →
      (∀ sp ∈ rest, sp.task_ids = []) →
      ((assignTasks ts (done ++ bucket :: rest) done.length total).map Sprint.task_ids).flatten
        = ((done ++ bucket :: rest).map Sprint.task_ids).flatten ++ ts.map Task.id := by
  intro ts
  induction ts with
  | nil => intro done bucket rest total htot hrest; simp [assignTasks]
  | cons t ts ih =>
    intro done bucket rest total htot hrest
    have hflatrest : (rest.map Sprint.task_ids).flatten = [] :=
      flatten_eq_nil_of_all_nil _ (by
        intro x hx
        simp only [List.mem_map] at hx
        obtain ⟨sp, hsp, rfl⟩ := hx
        exact hrest sp hsp)
    simp only [assignTasks]
    rw [getD_append_cons, set_append_cons, getD_append_cons]
    by_cases hc : 5 ≤ (addTaskId bucket t.id).task_ids.length ∧ done.length < total - 1
    · rw [if_pos hc]
      rcases rest with _ | ⟨r, rest'⟩
      · exfalso
        have := hc.2
        simp at htot
        omega
      · have hre : ∀ sp ∈ rest', sp.task_ids = [] := fun sp h => hrest sp (by simp [h])
        have h2 := ih (done ++ [addTaskId bucket t.id]) r rest' total
          (by simp at htot ⊢; omega) hre
        simp only [List.length_append, List.length_cons, List.length_nil,
          List.append_assoc, List.cons_append, List.nil_append] at h2
        rw [h2]
        have hflatrest' : (rest'.map Sprint.task_ids).flatten = [] :=
          flatten_eq_nil_of_all_nil _ (by
            intro x hx
            simp only [List.mem_map] at hx
            obtain ⟨sp, hsp, rfl⟩ := hx
            exact hre sp hsp)
        simp [List.map_append, List.flatten_append, addTaskId, hflatrest',
          hrest r (by simp), List.append_assoc]
    · rw [if_neg hc]
      have h2 := ih done (addTaskId bucket t.id) rest total htot hrest
      rw [h2]
      simp [List.map_append, List.flatten_append, addTaskId, hflatrest, List.append_assoc]

theorem mkSprints_tids (total : Nat) (today : Int) :
    ∀ sp ∈ mkSprints total today, sp.task_ids = [] := by
  intro sp h
  simp only [mkSprints, List.mem_map] at h
  obtain ⟨i, _, rfl⟩ := h
  rfl

theorem allocate_tids_flatten (epics : List Epic) (tasks : List Task)
    (horizon vision : String) (today : Int) (hne : tasks ≠ []) :
    ((_allocate_sprints epics tasks horizon vision today).map Sprint.task_ids).flatten
      = tasks.map Task.id := by
  unfold _allocate_sprints
  simp only []
  have hpos := estimate_pos horizon
  rw [if_neg (by omega)]
  rw [if_neg (by simpa [List.isEmpty_iff] using hne)]
  rw [tids_setGoals]
  rcases hm : mkSprints (_estimate_number_of_sprints horizon) today with _ | ⟨hd, tl⟩
  · exfalso
    have := length_mkSprints (_estimate_number_of_sprints horizon) today
    rw [hm] at this
    simp at this
    omega
  · have hrest : ∀ sp ∈ tl, sp.task_ids = [] := fun sp h =>
      mkSprints_tids _ _ sp (by rw [hm]; simp [h])
    have htot : _estimate_number_of_sprints horizon
        = ([] : List Sprint).length + 1 + tl.length := by
      have hlen := length_mkSprints (_estimate_number_of_sprints horizon) today
      rw [hm] at hlen
      simp at hlen ⊢
      omega
    have h2 := assign_tids_flatten tasks [] hd tl (_estimate_number_of_sprints horizon)
      htot hrest
    simp only [List.nil_append, List.length_nil] at h2
    rw [h2]
    have hflattl : (tl.map Sprint.task_ids).flatten = [] :=
      flatten_eq_nil_of_all_nil _ (by
        intro x hx
        simp only [List.mem_map] at hx
        obtain ⟨sp, hsp, rfl⟩ := hx
        exact hrest sp hsp)
    have hhd : hd.task_ids = [] := mkSprints_tids _ _ hd (by rw [hm]; simp)
    simp [hflattl, hhd]

theorem countP_mem_flatten_zero {α : Type _} [DecidableEq α] :
    ∀ (L : List (List α)) (x : α), x ∉ L.flatten →
      L.countP (fun l => decide (x ∈ l)) = 0 := by
  intro L x
  induction L with
  | nil => intro _; rfl
  | cons l ls ih =>
    intro h
    rw [List.flatten_cons] at h
    simp only [List.mem_append] at h
    push_neg at h
    rw [List.countP_cons, ih h.2, if_neg (by simpa using h.1)]

theorem countP_mem_flatten_one {α : Type _} [DecidableEq α] :
    ∀ (L : List (List α)) (x : α), L.flatten.Nodup → x ∈ L.flatten →
      L.countP (fun l => decide (x ∈ l)) = 1 := by
  intro L x
  induction L with
  | nil => intro _ h; simp at h
  | cons l ls ih =>
    intro hnd hx
    rw [List.flatten_cons] at hnd hx
    rw [List.nodup_append] at hnd
    obtain ⟨hl, hls, hdisj⟩ := hnd
    rw [List.countP_cons]
    rcases List.mem_append.mp hx with h | h
    · have hnot : x ∉ ls.flatten := fun hmem => hdisj h hmem
      rw [countP_mem_flatten_zero ls x hnot, if_pos (by simpa using h)]
    · have hnot : x ∉ l := fun hmem => hdisj hmem h
      rw [ih hls h, if_neg (by simpa using hnot)]

/-- C3: for every non-empty task list, the concatenation of the sprints'
task-id buckets (in sprint order) is exactly the task-id list in parser
order — no duplication, no omission — and, when the task ids are pairwise
distinct, each task id occurs in exactly one sprint's bucket. -/
theorem allocate_partitions_tasks (epics : List Epic) (tasks : List Task)
    (horizon vision : String) (today : Int) (hne : tasks ≠ []) :
    (((_allocate_sprints epics tasks horizon vision today).map Sprint.task_ids).flatten
        = tasks.map Task.id)
    ∧ ((tasks.map Task.id).Nodup → ∀ t ∈ tasks,
        ((_allocate_sprints epics tasks horizon vision today).countP
          (fun sp => decide (t.id ∈ sp.task_ids))) = 1) := by
  have hflat := allocate_tids_flatten epics tasks horizon vision today hne
  refine ⟨hflat, ?_⟩
  intro hnd t ht
  have hmem : t.id ∈ ((_allocate_sprints epics tasks horizon vision today).map
      Sprint.task_ids).flatten := by
    rw [hflat]
    exact List.mem_map_of_mem Task.id ht
  have hnd' : ((_allocate_sprints epics tasks horizon vision today).map
      Sprint.task_ids).flatten.Nodup := by
    rw [hflat]
    exact hnd
  have h1 := countP_mem_flatten_one
    ((_allocate_sprints epics tasks horizon vision today).map Sprint.task_ids)
    t.id hnd' hmem
  rw [List.countP_map] at h1
  exact h1

theorem allocate_partitions_tasks_witness :
    (nineTasks ≠ [])
    ∧ (((_allocate_sprints [] nineTasks "quarter" "v" 0).map Sprint.task_ids).flatten
        = nineTasks.map Task.id)
    ∧ ((_allocate_sprints [] nineTasks "quarter" "v" 0).countP
        (fun sp => decide ("TASK-1" ∈ sp.task_ids))) = 1
    ∧ ((_allocate_sprints [] nineTasks "quarter" "v" 0).map
        (fun sp => sp.task_ids.length)) = [5, 4, 0, 0, 0, 0] :=
  ⟨by decide,
   (allocate_partitions_tasks [] nineTasks "quarter" "v" 0 (by decide)).1,
   (allocate_partitions_tasks [] nineTasks "quarter" "v" 0 (by decide)).2 (by decide)
     (nineTasks.get ⟨0, by decide⟩) (List.get_mem _ _ _),
   by decide⟩

/-! ### Goal synthesis: position-indexed templates -/

theorem setGoals_getElemQ (e : List Epic) (t : List Task) (fl : String) :
    ∀ (ss : List Sprint) (i0 j : Nat),
      (setGoals e t fl ss i0)[j]?
        = (ss[j]?).map (fun sp => { sp with goal := goalForSprint e t fl (i0 + j) sp }) := by
  intro ss
  induction ss with
  | nil => intro i0 j; simp [setGoals]
  | cons sp rest ih =>
    intro i0 j
    cases j with
    | zero => simp [setGoals]
    | succ k =>
      simp only [setGoals, List.getElem?_cons_succ, ih (i0 + 1) k]
      rw [show i0 + 1 + k = i0 + (k + 1) by omega]

theorem setGenericGoals_getElemQ :
    ∀ (ss : List Sprint) (i0 j : Nat),
      (setGenericGoals ss i0)[j]?
        = (ss[j]?).map (fun sp => { sp with goal := genericGoal (i0 + j) }) := by
  intro ss
  induction ss with
  | nil => intro i0 j; simp [setGenericGoals]
  | cons sp rest ih =>
    intro i0 j
    cases j with
    | zero => simp [setGenericGoals]
    | succ k =>
      simp only [setGenericGoals, List.getElem?_cons_succ, ih (i0 + 1) k]
      rw [show i0 + 1 + k = i0 + (k + 1) by omega]

theorem allocate_eq_empty (epics : List Epic) (tasks : List Task)
    (horizon vision : String) (today : Int) (h : tasks = []) :
    _allocate_sprints epics tasks horizon vision today
      = setGenericGoals (mkSprints (_estimate_number_of_sprints horizon) today) 0 := by
  have hpos := estimate_pos horizon
  unfold _allocate_sprints
  simp only []
  rw [if_neg (by omega), if_pos (by simp [h])]

theorem allocate_eq_nonempty (epics : List Epic) (tasks : List Task)
    (horizon vision : String) (today : Int) (h : tasks ≠ []) :
    _allocate_sprints epics tasks horizon vision today
      = setGoals epics tasks (firstLineOfVision vision)
          (assignTasks tasks (mkSprints (_estimate_number_of_sprints horizon) today) 0
            (_estimate_number_of_sprints horizon)) 0 := by
  have hpos := estimate_pos horizon
  unfold _allocate_sprints
  simp only []
  rw [if_neg (by omega), if_neg (by simpa [List.isEmpty_iff] using h)]

theorem epicTitles_goal_irrel (e : List Epic) (t : List Task) (sp : Sprint) (g : String) :
    epicTitlesInSprint e t { sp with goal := g } = epicTitlesInSprint e t sp := rfl

/-- C7 (amended): every sprint goal follows a position-indexed template, but
there are seven phrasings, not four: with a non-empty task list the four
templates (foundations referencing the vision first line / core
implementation / refinement and validation / ongoing improvements, each over
the sprint's deduplicated epic-title list), and with an empty task list three
generic strings, where every sprint past index 1 — including index 2 — reads
"Ongoing improvements.". -/
theorem sprint_goal_templates (epics : List Epic) (tasks : List Task)
    (horizon vision : String) (today : Int) :
    ∀ i (hi : i < (_allocate_sprints epics tasks horizon vision today).length),
      ((_allocate_sprints epics tasks horizon vision today).get ⟨i, hi⟩).goal =
        if tasks = [] then
          (if i = 0 then "Initial setup and discovery."
           else if i = 1 then "Core implementation."
           else "Ongoing improvements.")
        else
          (let els := epicListStr (dedupeKeepOrder (epicTitlesInSprint epics tasks
              ((_allocate_sprints epics tasks horizon vision today).get ⟨i, hi⟩)))
           if i = 0 then
             "Foundations for '" ++ firstLineOfVision vision ++ "'. Focus on " ++ els ++ "."
           else if i = 1 then "Core implementation for " ++ els ++ "."
           else if i = 2 then "Refinement and validation for " ++ els ++ "."
           else "Ongoing improvements across " ++ els ++ ".") := by
  intro i hi
  by_cases htasks : tasks = []
  · rw [if_pos htasks]
    have e1 := allocate_eq_empty epics tasks horizon vision today htasks
    have hi2 : i < (mkSprints (_estimate_number_of_sprints horizon) today).length := by
      have := hi
      rw [e1, length_setGenericGoals] at this
      exact this
    have h4 : (_allocate_sprints epics tasks horizon vision today)[i]?
        = some ((_allocate_sprints epics tasks horizon vision today).get ⟨i, hi⟩) := by
      rw [List.getElem?_eq_getElem hi]
      simp [List.get_eq_getElem]
    have h6 : (setGenericGoals (mkSprints (_estimate_number_of_sprints horizon) today) 0)[i]?
        = some ({ (mkSprints (_estimate_number_of_sprints horizon) today).get ⟨i, hi2⟩ with
            goal := genericGoal (0 + i) }) := by
      rw [setGenericGoals_getElemQ, List.getElem?_eq_getElem hi2]
      simp [List.get_eq_getElem]
    have h7 : (_allocate_sprints epics tasks horizon vision today)[i]?
        = (setGenericGoals (mkSprints (_estimate_number_of_sprints horizon) today) 0)[i]? := by
      rw [e1]
    have h8 := Option.some.inj ((h4.symm.trans h7).trans h6)
    rw [h8]
    simp only [Nat.zero_add]
    rfl
  · rw [if_neg htasks]
    have e1 := allocate_eq_nonempty epics tasks horizon vision today htasks
    have hi2 : i < (assignTasks tasks
        (mkSprints (_estimate_number_of_sprints horizon) today) 0
        (_estimate_number_of_sprints horizon)).length := by
      have := hi
      rw [e1, length_setGoals] at this
      exact this
    have h4 : (_allocate_sprints epics tasks horizon vision today)[i]?
        = some ((_allocate_sprints epics tasks horizon vision today).get ⟨i, hi⟩) := by
      rw [List.getElem?_eq_getElem hi]
      simp [List.get_eq_getElem]
    have h6 : (setGoals epics tasks (firstLineOfVision vision)
          (assignTasks tasks (mkSprints (_estimate_number_of_sprints horizon) today) 0
            (_estimate_number_of_sprints horizon)) 0)[i]?
        = some ({ (assignTasks tasks (mkSprints (_estimate_number_of_sprints horizon) today) 0
              (_estimate_number_of_sprints horizon)).get ⟨i, hi2⟩ with
            goal := goalForSprint epics tasks (firstLineOfVision vision) (0 + i)
              ((assignTasks tasks (mkSprints (_estimate_number_of_sprints horizon) today) 0
                (_estimate_number_of_sprints horizon)).get ⟨i, hi2⟩) }) := by
      rw [setGoals_getElemQ, List.getElem?_eq_getElem hi2]
      simp [List.get_eq_getElem]
    have h7 : (_allocate_sprints epics tasks horizon vision today)[i]?
        = (setGoals epics tasks (firstLineOfVision vision)
            (assignTasks tasks (mkSprints (_estimate_number_of_sprints horizon) today) 0
              (_estimate_number_of_sprints horizon)) 0)[i]? := by
      rw [e1]
    have h8 := Option.some.inj ((h4.symm.trans h7).trans h6)
    rw [h8]
    simp only [Nat.zero_add, epicTitles_goal_irrel]
    rfl

theorem sprint_goal_templates_witness :
    (0 < (_allocate_sprints [] [] "month" "v" 0).length)
    ∧ ((_allocate_sprints [] [] "month" "v" 0).get ⟨0, by decide⟩).goal
        = "Initial setup and discovery." :=
  ⟨by decide, by
    have h := sprint_goal_templates [] [] "month" "v" 0 0 (by decide)
    simpa using h⟩

/-- C7 counterexample to the claim as stated: with an empty task list under
horizon quarter, sprint index 2 gets the goal "Ongoing improvements.", which
is not an instance of the claimed sprint-2 template "Refinement and
validation for {epics}.". -/
theorem sprint_goal_templates_counterexample :
    ((_allocate_sprints [] [] "quarter" "v" 0).get ⟨2, by decide⟩).goal
        = "Ongoing improvements."
    ∧ ¬ refinementPhrased "Ongoing improvements." := by
  constructor
  · rfl
  · rintro ⟨els, h⟩
    have hlen := congrArg String.length h
    rw [String.length_append, String.length_append] at hlen
    have h1 : ("Ongoing improvements." : String).length = 21 := rfl
    have h2 : ("Refinement and validation for " : String).length = 30 := rfl
    have h3 : ("." : String).length = 1 := rfl
    omega

/-! ### The parser loop invariant -/

theorem chain'_concat_lt {nums : List Nat} {b : Nat}
    (h1 : nums.Chain' (· < ·)) (h2 : ∀ n ∈ nums, n < b) :
    (nums ++ [b]).Chain' (· < ·) := by
  rw [List.chain'_append]
  refine ⟨h1, List.chain'_singleton _, ?_⟩
  intro x hx y hy
  simp only [List.head?_cons, Option.mem_def, Option.some.injEq] at hy
  subst hy
  exact h2 x (List.mem_of_mem_getLast? hx)

theorem loopInv_init : LoopInv initState := by
  refine ⟨by decide, by decide, rfl, fun _ => rfl, ⟨[], rfl, List.chain'_nil, by simp⟩,
    ?_, ?_, ?_⟩
  · intro e he
    simp [initState] at he
  · intro e he
    simp [initState] at he
  · intro e s he
    simp [initState] at he

theorem range'_map_concat_generate (ec : Nat) (hec : 1 ≤ ec) :
    (List.range' 1 ec).map (_generate_id "EPIC")
      = (List.range' 1 (ec - 1)).map (_generate_id "EPIC") ++ [_generate_id "EPIC" ec] := by
  have h0 := List.range'_1_concat 1 (ec - 1)
  rw [show ec - 1 + 1 = ec from by omega] at h0
  rw [h0, List.map_append]
  simp [show 1 + (ec - 1) = ec from by omega]

theorem inv_open_epic (st : PState) (title desc : String) (prio : Priority)
    (h : LoopInv st) :
    LoopInv (
      let st1 := closeStoryClearing st
      let st2 := match st1.curEpic with
        | some e => { st1 with epics := st1.epics ++ [e] }
        | none => st1
      { st2 with
        curEpic := some { id := _generate_id "EPIC" st2.ec, title := title,
                          description := desc, priority := prio,
                          status := Status.planned, stories := [] },
        ec := st2.ec + 1,
        lastLineWasEpicTitle := true }) := by
  obtain ⟨hec, hsc, hids, hnone, ⟨nums, hn1, hn2, hn3⟩, hrefs, hrefCur, hrefStory⟩ := h
  rcases st with ⟨E, cE, cS, coll, temp, last, ec, sc⟩
  simp only [] at hec hsc hids hnone hn3 hrefs hrefCur hrefStory
  cases cS with
  | none =>
    cases cE with
    | none =>
      have hE : E = [] := hnone rfl
      subst hE
      have hec1 : ec = 1 := by
        have h2 : ([] : List String)
            = (List.range' 1 (ec - 1)).map (_generate_id "EPIC") := hids
        have h3 := List.range'_eq_nil.mp (List.map_eq_nil_iff.mp h2.symm)
        omega
      subst hec1
      show LoopInv ⟨[], some ⟨_generate_id "EPIC" 1, title, desc, prio,
        Status.planned, []⟩, none, coll, temp, true, 1 + 1, sc⟩
      refine ⟨by show (1:Nat) ≤ 1 + 1; omega, hsc, ?_, by intro hcon; exact absurd hcon (by simp), ?_, ?_, ?_, ?_⟩
      · simp [epicIdsOf, List.range']
      · exact ⟨[], by simp [storyIdsOf, committedStories], List.chain'_nil, by simp⟩
      · intro e he
        simp at he
      · intro e he s hs
        simp at he
        subst he
        simp at hs
      · intro e s he hs
        simp at hs
    | some e =>
      have key : (E ++ [e]).map Epic.id
          = (List.range' 1 (ec - 1)).map (_generate_id "EPIC") := by
        simpa [epicIdsOf] using hids
      show LoopInv ⟨E ++ [e], some ⟨_generate_id "EPIC" ec, title, desc, prio,
        Status.planned, []⟩, none, coll, temp, true, ec + 1, sc⟩
      refine ⟨Nat.le_add_left 1 ec, hsc, ?_, by intro hcon; exact absurd hcon (by simp), ?_, ?_, ?_, ?_⟩
      · show ((E ++ [e]) ++ [_]).map Epic.id
          = (List.range' 1 (ec + 1 - 1)).map (_generate_id "EPIC")
        rw [show ec + 1 - 1 = ec from by omega, range'_map_concat_generate ec hec,
          List.map_append, key]
        simp
      · refine ⟨nums, ?_, hn2, fun n hn => ⟨(hn3 n hn).1,
          by have h9 := (hn3 n hn).2; show n < sc; omega⟩⟩
        have hold : storyIdsOf ⟨E, some e, none, coll, temp, last, ec, sc⟩
            = nums.map (_generate_id "STORY") := hn1
        simp only [storyIdsOf, committedStories] at hold ⊢
        simpa [List.map_append, List.flatten_append] using hold
      · intro e' he' s hs
        simp only [List.mem_append, List.mem_singleton] at he'
        rcases he' with he' | he'
        · exact hrefs e' he' s hs
        · subst he'
          exact hrefCur e' rfl s hs
      · intro e' he' s hs
        simp only [Option.some.injEq] at he'
        subst he'
        simp at hs
      · intro e' s he' hs
        simp at hs
  | some s =>
    cases cE with
    | none =>
      have hE : E = [] := hnone rfl
      subst hE
      have hec1 : ec = 1 := by
        have h2 : ([] : List String)
            = (List.range' 1 (ec - 1)).map (_generate_id "EPIC") := hids
        have h3 := List.range'_eq_nil.mp (List.map_eq_nil_iff.mp h2.symm)
        omega
      subst hec1
      show LoopInv ⟨[], some ⟨_generate_id "EPIC" 1, title, desc, prio,
        Status.planned, []⟩, none, false, [], true, 1 + 1, sc⟩
      refine ⟨by show (1:Nat) ≤ 1 + 1; omega, hsc, ?_, by intro hcon; exact absurd hcon (by simp), ?_, ?_, ?_, ?_⟩
      · simp [epicIdsOf, List.range']
      · exact ⟨[], by simp [storyIdsOf, committedStories], List.chain'_nil, by simp⟩
      · intro e he
        simp at he
      · intro e he s' hs
        simp at he
        subst he
        simp at hs
      · intro e s' he hs
        simp at hs
    | some e =>
      have key : (E ++ [e]).map Epic.id
          = (List.range' 1 (ec - 1)).map (_generate_id "EPIC") := by
        simpa [epicIdsOf] using hids
      show LoopInv ⟨E ++ [{ e with stories := e.stories
          ++ [{ s with acceptance_criteria := temp }] }],
        some ⟨_generate_id "EPIC" ec, title, desc, prio, Status.planned, []⟩,
        none, false, [], true, ec + 1, sc⟩
      refine ⟨Nat.le_add_left 1 ec, hsc, ?_, by intro hcon; exact absurd hcon (by simp), ?_, ?_, ?_, ?_⟩
      · show ((E ++ [{ e with stories := e.stories
            ++ [{ s with acceptance_criteria := temp }] }]) ++ [_]).map Epic.id
          = (List.range' 1 (ec + 1 - 1)).map (_generate_id "EPIC")
        rw [show ec + 1 - 1 = ec from by omega, range'_map_concat_generate ec hec,
          List.map_append]
        have hsame : (E ++ [{ e with stories := e.stories
              ++ [{ s with acceptance_criteria := temp }] }]).map Epic.id
            = (E ++ [e]).map Epic.id := by
          simp [List.map_append]
        rw [hsame, key]
        simp
      · refine ⟨nums, ?_, hn2, fun n hn => ⟨(hn3 n hn).1,
          by have h9 := (hn3 n hn).2; show n < sc; omega⟩⟩
        have hold : storyIdsOf ⟨E, some e, some s, coll, temp, last, ec, sc⟩
            = nums.map (_generate_id "STORY") := hn1
        simp only [storyIdsOf, committedStories] at hold ⊢
        simpa [List.map_append, List.flatten_append, List.append_assoc] using hold
      · intro e' he' s' hs
        simp only [List.mem_append, List.mem_singleton] at he'
        rcases he' with he' | he'
        · exact hrefs e' he' s' hs
        · subst he'
          simp only [List.mem_append, List.mem_singleton] at hs
          rcases hs with hs | hs
          · exact hrefCur e rfl s' hs
          · subst hs
            show s.epic_id = e.id
            exact hrefStory e s rfl rfl
      · intro e' he' s' hs
        simp only [Option.some.injEq] at he'
        subst he'
        simp at hs
      · intro e' s' he' hs
        simp at hs

theorem inv_open_story_tagged (st : PState) (title : String) (h : LoopInv st) :
    LoopInv (
      let st1 := closeStoryKeeping st
      let st2 := match st1.curEpic with
        | none =>
          { st1 with
            curEpic := some { id := _generate_id "EPIC" st1.ec, title := "General",
                              description := "Auto-created epic for orphan stories.",
                              priority := Priority.medium, status := Status.planned,
                              stories := [] },
            ec := st1.ec + 1 }
        | some _ => st1
      { st2 with
        curStory := some { id := _generate_id "STORY" st2.sc,
                           epic_id := (match st2.curEpic with | some e => e.id | none => ""),
                           title := title, description := "", acceptance_criteria := [],
                           priority := Priority.medium, status := Status.planned,
                           tasks := [] },
        sc := st2.sc + 1,
        collecting := false,
        lastLineWasEpicTitle := false }) := by
  obtain ⟨hec, hsc, hids, hnone, ⟨nums, hn1, hn2, hn3⟩, hrefs, hrefCur, hrefStory⟩ := h
  rcases st with ⟨E, cE, cS, coll, temp, last, ec, sc⟩
  simp only [] at hec hsc hids hnone hn3 hrefs hrefCur hrefStory
  cases cE with
  | none =>
    have hE : E = [] := hnone rfl
    subst hE
    have hec1 : ec = 1 := by
      have h2 : ([] : List String)
          = (List.range' 1 (ec - 1)).map (_generate_id "EPIC") := hids
      have h3 := List.range'_eq_nil.mp (List.map_eq_nil_iff.mp h2.symm)
      omega
    subst hec1
    cases cS with
    | none =>
      show LoopInv ⟨[], some ⟨_generate_id "EPIC" 1, "General",
          "Auto-created epic for orphan stories.", Priority.medium, Status.planned, []⟩,
        some ⟨_generate_id "STORY" sc, _generate_id "EPIC" 1, title, "", [],
          Priority.medium, Status.planned, []⟩,
        false, temp, false, 1 + 1, sc + 1⟩
      refine ⟨by show (1:Nat) ≤ 1 + 1; omega, Nat.le_add_left 1 sc, ?_,
        by intro hcon; exact absurd hcon (by simp), ?_, ?_, ?_, ?_⟩
      · simp [epicIdsOf, List.range']
      · refine ⟨[sc], by simp [storyIdsOf, committedStories], List.chain'_singleton _, ?_⟩
        intro n hn
        have hn' : n = sc := by simpa using hn
        rw [hn']
        exact ⟨hsc, by show sc < sc + 1; omega⟩
      · intro e he
        simp at he
      · intro e he s hs
        simp at he
        subst he
        simp at hs
      · intro e s he hs
        simp only [Option.some.injEq] at he hs
        subst he
        subst hs
        rfl
    | some s =>
      show LoopInv ⟨[], some ⟨_generate_id "EPIC" 1, "General",
          "Auto-created epic for orphan stories.", Priority.medium, Status.planned, []⟩,
        some ⟨_generate_id "STORY" sc, _generate_id "EPIC" 1, title, "", [],
          Priority.medium, Status.planned, []⟩,
        false, [], false, 1 + 1, sc + 1⟩
      refine ⟨by show (1:Nat) ≤ 1 + 1; omega, Nat.le_add_left 1 sc, ?_,
        by intro hcon; exact absurd hcon (by simp), ?_, ?_, ?_, ?_⟩
      · simp [epicIdsOf, List.range']
      · refine ⟨[sc], by simp [storyIdsOf, committedStories], List.chain'_singleton _, ?_⟩
        intro n hn
        have hn' : n = sc := by simpa using hn
        rw [hn']
        exact ⟨hsc, by show sc < sc + 1; omega⟩
      · intro e he
        simp at he
      · intro e he s' hs
        simp at he
        subst he
        simp at hs
      · intro e s' he hs
        simp only [Option.some.injEq] at he hs
        subst he
        subst hs
        rfl
  | some e =>
    cases cS with
    | none =>
      show LoopInv ⟨E, some e,
        some ⟨_generate_id "STORY" sc, e.id, title, "", [],
          Priority.medium, Status.planned, []⟩,
        false, temp, false, ec, sc + 1⟩
      refine ⟨hec, Nat.le_add_left 1 sc, ?_,
        by intro hcon; exact absurd hcon (by simp), ?_, ?_, ?_, ?_⟩
      · exact hids
      · refine ⟨nums ++ [sc], ?_, chain'_concat_lt hn2 (fun n hn => (hn3 n hn).2), ?_⟩
        · have goal_eq : storyIdsOf ⟨E, some e,
              some ⟨_generate_id "STORY" sc, e.id, title, "", [],
                Priority.medium, Status.planned, []⟩,
              false, temp, false, ec, sc + 1⟩
              = storyIdsOf ⟨E, some e, none, coll, temp, last, ec, sc⟩
                ++ [_generate_id "STORY" sc] := by
            simp [storyIdsOf, committedStories, List.map_append, List.append_assoc]
          rw [goal_eq, hn1, List.map_append]
          rfl
        · intro n hn
          rcases List.mem_append.mp hn with hn | hn
          · exact ⟨(hn3 n hn).1, by have h9 := (hn3 n hn).2; show n < sc + 1; omega⟩
          · have hn' : n = sc := by simpa using hn
            rw [hn']
            exact ⟨hsc, by show sc < sc + 1; omega⟩
      · exact hrefs
      · intro e' he' s' hs
        simp only [Option.some.injEq] at he'
        subst he'
        exact hrefCur e rfl s' hs
      · intro e' s' he' hs
        simp only [Option.some.injEq] at he' hs
        subst he'
        subst hs
        rfl
    | some s =>
      show LoopInv ⟨E, some { e with stories := e.stories
          ++ [{ s with acceptance_criteria := temp }] },
        some ⟨_generate_id "STORY" sc, e.id, title, "", [],
          Priority.medium, Status.planned, []⟩,
        false, [], false, ec, sc + 1⟩
      refine ⟨hec, Nat.le_add_left 1 sc, ?_,
        by intro hcon; exact absurd hcon (by simp), ?_, ?_, ?_, ?_⟩
      · show (E ++ [{ e with stories := e.stories
            ++ [{ s with acceptance_criteria := temp }] }]).map Epic.id
          = (List.range' 1 (ec - 1)).map (_generate_id "EPIC")
        have key : (E ++ [e]).map Epic.id
            = (List.range' 1 (ec - 1)).map (_generate_id "EPIC") := by
          simpa [epicIdsOf] using hids
        have key2 : (E ++ [{ e with stories := e.stories
            ++ [{ s with acceptance_criteria := temp }] }]).map Epic.id
            = (E ++ [e]).map Epic.id := by simp
        rw [key2]
        exact key
      · refine ⟨nums ++ [sc], ?_, chain'_concat_lt hn2 (fun n hn => (hn3 n hn).2), ?_⟩
        · have goal_eq : storyIdsOf ⟨E, some { e with stories := e.stories
                ++ [{ s with acceptance_criteria := temp }] },
              some ⟨_generate_id "STORY" sc, e.id, title, "", [],
                Priority.medium, Status.planned, []⟩,
              false, [], false, ec, sc + 1⟩
              = storyIdsOf ⟨E, some e, some s, coll, temp, last, ec, sc⟩
                ++ [_generate_id "STORY" sc] := by
            simp [storyIdsOf, committedStories, List.map_append, List.append_assoc]
          rw [goal_eq, hn1, List.map_append]
          rfl
        · intro n hn
          rcases List.mem_append.mp hn with hn | hn
          · exact ⟨(hn3 n hn).1, by have h9 := (hn3 n hn).2; show n < sc + 1; omega⟩
          · have hn' : n = sc := by simpa using hn
            rw [hn']
            exact ⟨hsc, by show sc < sc + 1; omega⟩
      · exact hrefs
      · intro e' he' s' hs
        simp only [Option.some.injEq] at he'
        subst he'
        simp only [List.mem_append, List.mem_singleton] at hs
        rcases hs with hs | hs
        · exact hrefCur e rfl s' hs
        · subst hs
          show s.epic_id = e.id
          exact hrefStory e s rfl rfl
      · intro e' s' he' hs
        simp only [Option.some.injEq] at he' hs
        subst he'
        subst hs
        rfl

theorem inv_open_story_legacy (st : PState) (title : String) (h : LoopInv st) :
    LoopInv (
      let st1 := closeStoryKeeping st
      { st1 with
        curStory := some { id := _generate_id "STORY" st1.sc,
                           epic_id := (match st1.curEpic with | some e => e.id | none => ""),
                           title := title, description := "", acceptance_criteria := [],
                           priority := Priority.medium, status := Status.planned,
                           tasks := [] },
        sc := st1.sc + 1,
        collecting := false }) := by
  obtain ⟨hec, hsc, hids, hnone, ⟨nums, hn1, hn2, hn3⟩, hrefs, hrefCur, hrefStory⟩ := h
  rcases st with ⟨E, cE, cS, coll, temp, last, ec, sc⟩
  simp only [] at hec hsc hids hnone hn3 hrefs hrefCur hrefStory
  cases cE with
  | none =>
    have hE : E = [] := hnone rfl
    subst hE
    cases cS with
    | none =>
      show LoopInv ⟨[], none,
        some ⟨_generate_id "STORY" sc, "", title, "", [],
          Priority.medium, Status.planned, []⟩,
        false, temp, last, ec, sc + 1⟩
      refine ⟨hec, Nat.le_add_left 1 sc, hids, fun _ => rfl, ?_, ?_, ?_, ?_⟩
      · refine ⟨[sc], by simp [storyIdsOf, committedStories], List.chain'_singleton _, ?_⟩
        intro n hn
        have hn' : n = sc := by simpa using hn
        rw [hn']
        exact ⟨hsc, by show sc < sc + 1; omega⟩
      · intro e he
        simp at he
      · intro e he
        simp at he
      · intro e s' he hs
        simp at he
    | some s =>
      show LoopInv ⟨[], none,
        some ⟨_generate_id "STORY" sc, "", title, "", [],
          Priority.medium, Status.planned, []⟩,
        false, [], last, ec, sc + 1⟩
      refine ⟨hec, Nat.le_add_left 1 sc, hids, fun _ => rfl, ?_, ?_, ?_, ?_⟩
      · refine ⟨[sc], by simp [storyIdsOf, committedStories], List.chain'_singleton _, ?_⟩
        intro n hn
        have hn' : n = sc := by simpa using hn
        rw [hn']
        exact ⟨hsc, by show sc < sc + 1; omega⟩
      · intro e he
        simp at he
      · intro e he
        simp at he
      · intro e s' he hs
        simp at he
  | some e =>
    cases cS with
    | none =>
      show LoopInv ⟨E, some e,
        some ⟨_generate_id "STORY" sc, e.id, title, "", [],
          Priority.medium, Status.planned, []⟩,
        false, temp, last, ec, sc + 1⟩
      refine ⟨hec, Nat.le_add_left 1 sc, hids,
        by intro hcon; exact absurd hcon (by simp), ?_, hrefs, ?_, ?_⟩
      · refine ⟨nums ++ [sc], ?_, chain'_concat_lt hn2 (fun n hn => (hn3 n hn).2), ?_⟩
        · have goal_eq : storyIdsOf ⟨E, some e,
              some ⟨_generate_id "STORY" sc, e.id, title, "", [],
                Priority.medium, Status.planned, []⟩,
              false, temp, last, ec, sc + 1⟩
              = storyIdsOf ⟨E, some e, none, coll, temp, last, ec, sc⟩
                ++ [_generate_id "STORY" sc] := by
            simp [storyIdsOf, committedStories, List.map_append, List.append_assoc]
          rw [goal_eq, hn1, List.map_append]
          rfl
        · intro n hn
          rcases List.mem_append.mp hn with hn | hn
          · exact ⟨(hn3 n hn).1, by have h9 := (hn3 n hn).2; show n < sc + 1; omega⟩
          · have hn' : n = sc := by simpa using hn
            rw [hn']
            exact ⟨hsc, by show sc < sc + 1; omega⟩
      · intro e' he' s' hs
        simp only [Option.some.injEq] at he'
        subst he'
        exact hrefCur e rfl s' hs
      · intro e' s' he' hs
        simp only [Option.some.injEq] at he' hs
        subst he'
        subst hs
        rfl
    | some s =>
      show LoopInv ⟨E, some { e with stories := e.stories
          ++ [{ s with acceptance_criteria := temp }] },
        some ⟨_generate_id "STORY" sc, e.id, title, "", [],
          Priority.medium, Status.planned, []⟩,
        false, [], last, ec, sc + 1⟩
      refine ⟨hec, Nat.le_add_left 1 sc, ?_,
        by intro hcon; exact absurd hcon (by simp), ?_, hrefs, ?_, ?_⟩
      · show (E ++ [{ e with stories := e.stories
            ++ [{ s with acceptance_criteria := temp }] }]).map Epic.id
          = (List.range' 1 (ec - 1)).map (_generate_id "EPIC")
        have key : (E ++ [e]).map Epic.id
            = (List.range' 1 (ec - 1)).map (_generate_id "EPIC") := by
          simpa [epicIdsOf] using hids
        have key2 : (E ++ [{ e with stories := e.stories
            ++ [{ s with acceptance_criteria := temp }] }]).map Epic.id
            = (E ++ [e]).map Epic.id := by simp
        rw [key2]
        exact key
      · refine ⟨nums ++ [sc], ?_, chain'_concat_lt hn2 (fun n hn => (hn3 n hn).2), ?_⟩
        · have goal_eq : storyIdsOf ⟨E, some { e with stories := e.stories
                ++ [{ s with acceptance_criteria := temp }] },
              some ⟨_generate_id "STORY" sc, e.id, title, "", [],
                Priority.medium, Status.planned, []⟩,
              false, [], last, ec, sc + 1⟩
              = storyIdsOf ⟨E, some e, some s, coll, temp, last, ec, sc⟩
                ++ [_generate_id "STORY" sc] := by
            simp [storyIdsOf, committedStories, List.map_append, List.append_assoc]
          rw [goal_eq, hn1, List.map_append]
          rfl
        · intro n hn
          rcases List.mem_append.mp hn with hn | hn
          · exact ⟨(hn3 n hn).1, by have h9 := (hn3 n hn).2; show n < sc + 1; omega⟩
          · have hn' : n = sc := by simpa using hn
            rw [hn']
            exact ⟨hsc, by show sc < sc + 1; omega⟩
      · intro e' he' s' hs
        simp only [Option.some.injEq] at he'
        subst he'
        simp only [List.mem_append, List.mem_singleton] at hs
        rcases hs with hs | hs
        · exact hrefCur e rfl s' hs
        · subst hs
          show s.epic_id = e.id
          exact hrefStory e s rfl rfl
      · intro e' s' he' hs
        simp only [Option.some.injEq] at he' hs
        subst he'
        subst hs
        rfl

theorem inv_epic_desc (st : PState) (d : String) (h : LoopInv st) :
    LoopInv { st with
      curEpic := (match st.curEpic with
        | some e => some { e with description := d }
        | none => none),
      lastLineWasEpicTitle := false } := by
  obtain ⟨hec, hsc, hids, hnone, ⟨nums, hn1, hn2, hn3⟩, hrefs, hrefCur, hrefStory⟩ := h
  rcases st with ⟨E, cE, cS, coll, temp, last, ec, sc⟩
  simp only [] at hec hsc hids hnone hn3 hrefs hrefCur hrefStory
  cases cE with
  | none =>
    exact ⟨hec, hsc, hids, fun _ => hnone rfl, ⟨nums, hn1, hn2, hn3⟩, hrefs,
      fun e he => absurd he (by simp), fun e s he hs => absurd he (by simp)⟩
  | some e =>
    show LoopInv ⟨E, some { e with description := d }, cS, coll, temp, false, ec, sc⟩
    refine ⟨hec, hsc, ?_, by intro hcon; exact absurd hcon (by simp), ?_, hrefs, ?_, ?_⟩
    · show (E ++ [{ e with description := d }]).map Epic.id
        = (List.range' 1 (ec - 1)).map (_generate_id "EPIC")
      have key : (E ++ [e]).map Epic.id
          = (List.range' 1 (ec - 1)).map (_generate_id "EPIC") := by
        simpa [epicIdsOf] using hids
      have key2 : (E ++ [{ e with description := d }]).map Epic.id
          = (E ++ [e]).map Epic.id := by simp
      rw [key2]
      exact key
    · refine ⟨nums, ?_, hn2, hn3⟩
      have goal_eq : storyIdsOf ⟨E, some { e with description := d }, cS, coll, temp,
            false, ec, sc⟩
          = storyIdsOf ⟨E, some e, cS, coll, temp, last, ec, sc⟩ := by
        simp [storyIdsOf, committedStories]
      rw [goal_eq]
      exact hn1
    · intro e' he' s' hs
      simp only [Option.some.injEq] at he'
      subst he'
      exact hrefCur e rfl s' hs
    · intro e' s' he' hs
      simp only [Option.some.injEq] at he'
      subst he'
      show s'.epic_id = e.id
      exact hrefStory e s' rfl hs

theorem inv_story_desc (st : PState) (d : String) (h : LoopInv st) :
    LoopInv { st with
      curStory := (match st.curStory with
        | some s => some { s with description := d }
        | none => none) } := by
  obtain ⟨hec, hsc, hids, hnone, ⟨nums, hn1, hn2, hn3⟩, hrefs, hrefCur, hrefStory⟩ := h
  rcases st with ⟨E, cE, cS, coll, temp, last, ec, sc⟩
  simp only [] at hec hsc hids hnone hn3 hrefs hrefCur hrefStory
  cases cS with
  | none =>
    exact ⟨hec, hsc, hids, hnone, ⟨nums, hn1, hn2, hn3⟩, hrefs, hrefCur,
      fun e s he hs => absurd hs (by simp)⟩
  | some s =>
    show LoopInv ⟨E, cE, some { s with description := d }, coll, temp, last, ec, sc⟩
    refine ⟨hec, hsc, hids, hnone, ?_, hrefs, hrefCur, ?_⟩
    · refine ⟨nums, ?_, hn2, hn3⟩
      have goal_eq : storyIdsOf ⟨E, cE, some { s with description := d }, coll, temp,
            last, ec, sc⟩
          = storyIdsOf ⟨E, cE, some s, coll, temp, last, ec, sc⟩ := by
        simp [storyIdsOf, committedStories]
      rw [goal_eq]
      exact hn1
    · intro e' s' he' hs
      simp only [Option.some.injEq] at hs
      subst hs
      show s.epic_id = e'.id
      exact hrefStory e' s he' rfl

theorem inv_collect (st : PState) (h : LoopInv st) :
    LoopInv { st with collecting := true, tempCriteria := [] } :=
  ⟨h.ecPos, h.scPos, h.epicIds, h.noEpic, h.storyNums, h.refsCommitted, h.refsCur,
    h.refsStory⟩

theorem inv_add_criterion (st : PState) (c : String) (h : LoopInv st) :
    LoopInv { st with tempCriteria := st.tempCriteria ++ [c] } :=
  ⟨h.ecPos, h.scPos, h.epicIds, h.noEpic, h.storyNums, h.refsCommitted, h.refsCur,
    h.refsStory⟩

theorem processLine_inv (st : PState) (raw : List Char) (h : LoopInv st) :
    LoopInv (processLine st raw) := by
  unfold processLine
  simp only []
  split_ifs
  · exact inv_open_epic st _ _ _ h
  · exact inv_open_story_tagged st _ h
  · exact inv_open_epic st _ _ _ h
  · exact inv_epic_desc st _ h
  · exact inv_open_story_legacy st _ h
  · exact inv_story_desc st _ h
  · exact inv_collect st h
  · exact inv_add_criterion st _ h
  · exact h
  · exact h

theorem foldl_inv :
    ∀ (lines : List (List Char)) (st : PState), LoopInv st →
      LoopInv (lines.foldl processLine st) := by
  intro lines
  induction lines with
  | nil => intro st h; exact h
  | cons l ls ih =>
    intro st h
    exact ih (processLine st l) (processLine_inv st l h)

/-! ### End-of-input close: facts about the committed epic list -/

theorem closeEnd_epic_ids (st : PState) (h : LoopInv st) :
    (closeEnd st).map Epic.id
      = (List.range' 1 (st.ec - 1)).map (_generate_id "EPIC") := by
  obtain ⟨hec, hsc, hids, hnone, ⟨nums, hn1, hn2, hn3⟩, hrefs, hrefCur, hrefStory⟩ := h
  rcases st with ⟨E, cE, cS, coll, temp, last, ec, sc⟩
  simp only [] at hec hsc hids hnone hn3 hrefs hrefCur hrefStory
  cases cE with
  | none =>
    cases cS with
    | none => simpa [epicIdsOf, closeEnd, closeEndState] using hids
    | some s => simpa [epicIdsOf, closeEnd, closeEndState] using hids
  | some e =>
    cases cS with
    | none =>
      show (E ++ [e]).map Epic.id = _
      simpa [epicIdsOf] using hids
    | some s =>
      show (E ++ [{ e with stories := e.stories
          ++ [{ s with acceptance_criteria := temp }] }]).map Epic.id = _
      have key : (E ++ [e]).map Epic.id
          = (List.range' 1 (ec - 1)).map (_generate_id "EPIC") := by
        simpa [epicIdsOf] using hids
      have key2 : (E ++ [{ e with stories := e.stories
          ++ [{ s with acceptance_criteria := temp }] }]).map Epic.id
          = (E ++ [e]).map Epic.id := by simp
      rw [key2]
      exact key

theorem closeEnd_story_ids (st : PState) (h : LoopInv st) :
    ∃ nums : List Nat,
      ((closeEnd st).map Epic.stories).flatten.map Story.id
        = nums.map (_generate_id "STORY")
      ∧ nums.Chain' (· < ·) ∧ ∀ n ∈ nums, 1 ≤ n ∧ n < st.sc := by
  obtain ⟨hec, hsc, hids, hnone, ⟨nums, hn1, hn2, hn3⟩, hrefs, hrefCur, hrefStory⟩ := h
  rcases st with ⟨E, cE, cS, coll, temp, last, ec, sc⟩
  simp only [] at hec hsc hids hnone hn3 hrefs hrefCur hrefStory
  cases cE with
  | none =>
    have hE : E = [] := hnone rfl
    subst hE
    refine ⟨[], ?_, List.chain'_nil, by simp⟩
    cases cS with
    | none => simp [closeEnd, closeEndState]
    | some s => simp [closeEnd, closeEndState]
  | some e =>
    refine ⟨nums, ?_, hn2, hn3⟩
    cases cS with
    | none =>
      have goal_eq : (((E ++ [e]).map Epic.stories).flatten.map Story.id)
          = storyIdsOf ⟨E, some e, none, coll, temp, last, ec, sc⟩ := by
        simp [storyIdsOf, committedStories, List.map_append, List.flatten_append]
      show (((E ++ [e]).map Epic.stories).flatten.map Story.id) = _
      rw [goal_eq]
      exact hn1
    | some s =>
      have goal_eq : (((E ++ [{ e with stories := e.stories
            ++ [{ s with acceptance_criteria := temp }] }]).map Epic.stories).flatten.map
              Story.id)
          = storyIdsOf ⟨E, some e, some s, coll, temp, last, ec, sc⟩ := by
        simp [storyIdsOf, committedStories, List.map_append, List.flatten_append,
          List.append_assoc]
      show (((E ++ [{ e with stories := e.stories
          ++ [{ s with acceptance_criteria := temp }] }]).map Epic.stories).flatten.map
            Story.id) = _
      rw [goal_eq]
      exact hn1

theorem closeEnd_refs (st : PState) (h : LoopInv st) :
    ∀ e ∈ closeEnd st, ∀ s ∈ e.stories, s.epic_id = e.id := by
  obtain ⟨hec, hsc, hids, hnone, ⟨nums, hn1, hn2, hn3⟩, hrefs, hrefCur, hrefStory⟩ := h
  rcases st with ⟨E, cE, cS, coll, temp, last, ec, sc⟩
  simp only [] at hec hsc hids hnone hn3 hrefs hrefCur hrefStory
  cases cE with
  | none =>
    have hE : E = [] := hnone rfl
    subst hE
    intro e he
    cases cS with
    | none => simp [closeEnd, closeEndState] at he
    | some s => simp [closeEnd, closeEndState] at he
  | some e0 =>
    intro e he s hs
    cases cS with
    | none =>
      have he' : e ∈ E ++ [e0] := he
      simp only [List.mem_append, List.mem_singleton] at he'
      rcases he' with he' | he'
      · exact hrefs e he' s hs
      · subst he'
        exact hrefCur e rfl s hs
    | some s0 =>
      have he' : e ∈ E ++ [{ e0 with stories := e0.stories
          ++ [{ s0 with acceptance_criteria := temp }] }] := he
      simp only [List.mem_append, List.mem_singleton] at he'
      rcases he' with he' | he'
      · exact hrefs e he' s hs
      · subst he'
        simp only [List.mem_append, List.mem_singleton] at hs
        rcases hs with hs | hs
        · exact hrefCur e0 rfl s hs
        · subst hs
          show s0.epic_id = e0.id
          exact hrefStory e0 s0 rfl rfl

/-! ### Task synthesis: identifier bookkeeping -/

theorem synthStories_story_ids :
    ∀ (ss : List Story) (c : Nat),
      (synthTasksForStories ss c).1.map Story.id = ss.map Story.id := by
  intro ss
  induction ss with
  | nil => intro c; rfl
  | cons s rest ih =>
    intro c
    simp only [synthTasksForStories, List.map_cons]
    rw [ih]
    rfl

theorem synthEpics_epic_ids :
    ∀ (es : List Epic) (c : Nat),
      (synthTasksForEpics es c).1.map Epic.id = es.map Epic.id := by
  intro es
  induction es with
  | nil => intro c; rfl
  | cons e rest ih =>
    intro c
    simp only [synthTasksForEpics, List.map_cons]
    rw [ih]

theorem synthEpics_length :
    ∀ (es : List Epic) (c : Nat), (synthTasksForEpics es c).1.length = es.length := by
  intro es c
  have h := congrArg List.length (synthEpics_epic_ids es c)
  simpa using h

theorem synthEpics_story_ids :
    ∀ (es : List Epic) (c : Nat),
      ((synthTasksForEpics es c).1.map Epic.stories).flatten.map Story.id
        = (es.map Epic.stories).flatten.map Story.id := by
  intro es
  induction es with
  | nil => intro c; rfl
  | cons e rest ih =>
    intro c
    simp only [synthTasksForEpics, List.map_cons, List.flatten_cons, List.map_append]
    rw [ih, synthStories_story_ids]

theorem synthStories_refs :
    ∀ (ss : List Story) (c : Nat) (eid : String),
      (∀ s ∈ ss, s.epic_id = eid) →
      ∀ s ∈ (synthTasksForStories ss c).1, s.epic_id = eid := by
  intro ss
  induction ss with
  | nil => intro c eid _ s hs; simp [synthTasksForStories] at hs
  | cons s0 rest ih =>
    intro c eid hall s hs
    simp only [synthTasksForStories, List.mem_cons] at hs
    rcases hs with hs | hs
    · subst hs
      exact hall s0 (by simp)
    · exact ih _ eid (fun x hx => hall x (by simp [hx])) s hs

theorem synthEpics_refs :
    ∀ (es : List Epic) (c : Nat),
      (∀ e ∈ es, ∀ s ∈ e.stories, s.epic_id = e.id) →
      ∀ e ∈ (synthTasksForEpics es c).1, ∀ s ∈ e.stories, s.epic_id = e.id := by
  intro es
  induction es with
  | nil => intro c _ e he; simp [synthTasksForEpics] at he
  | cons e0 rest ih =>
    intro c hall e he s hs
    simp only [synthTasksForEpics, List.mem_cons] at he
    rcases he with he | he
    · subst he
      exact synthStories_refs e0.stories c e0.id (hall e0 (by simp)) s hs
    · exact ih _ (fun x hx => hall x (by simp [hx])) e he s hs

theorem synthStories_task_ids :
    ∀ (ss : List Story) (c : Nat),
      (synthTasksForStories ss c).2.1.map Task.id
          = (List.range' c (3 * ss.length)).map (_generate_id "TASK")
        ∧ (synthTasksForStories ss c).2.2 = c + 3 * ss.length := by
  intro ss
  induction ss with
  | nil => intro c; exact ⟨rfl, by simp [synthTasksForStories]⟩
  | cons s rest ih =>
    intro c
    obtain ⟨ih1, ih2⟩ := ih (c + 3)
    have hc : (synthTasksForStory s c).2.2 = c + 3 := rfl
    constructor
    · simp only [synthTasksForStories, List.map_append]
      rw [hc, ih1]
      rw [show (s :: rest).length = rest.length + 1 from rfl]
      rw [show 3 * (rest.length + 1) = 3 * rest.length + 3 from by omega]
      rw [← List.range'_append_1 c 3 (3 * rest.length), List.map_append]
      rfl
    · simp only [synthTasksForStories]
      rw [hc, ih2]
      rw [show (s :: rest).length = rest.length + 1 from rfl]
      omega

theorem synthEpics_task_ids :
    ∀ (es : List Epic) (c : Nat),
      ∃ m : Nat,
        (synthTasksForEpics es c).2.1.map Task.id
            = (List.range' c m).map (_generate_id "TASK")
        ∧ (synthTasksForEpics es c).2.2 = c + m := by
  intro es
  induction es with
  | nil => intro c; exact ⟨0, rfl, by simp [synthTasksForEpics]⟩
  | cons e rest ih =>
    intro c
    obtain ⟨s1, s2⟩ := synthStories_task_ids e.stories c
    obtain ⟨m, ih1, ih2⟩ := ih (c + 3 * e.stories.length)
    refine ⟨3 * e.stories.length + m, ?_, ?_⟩
    · simp only [synthTasksForEpics, List.map_append]
      rw [s1]
      rw [show (synthTasksForStories e.stories c).2.2 = c + 3 * e.stories.length from s2]
      rw [ih1]
      rw [show 3 * e.stories.length + m = m + 3 * e.stories.length from by omega]
      rw [← List.range'_append_1 c (3 * e.stories.length) m]
      rw [List.map_append]
    · simp only [synthTasksForEpics]
      rw [show (synthTasksForStories e.stories c).2.2 = c + 3 * e.stories.length from s2]
      rw [ih2]
      omega

theorem generate_id_injective (p : String) : Function.Injective (_generate_id p) :=
  fun _ _ h => generate_id_inj p h

/-- C8 (amended): within one parse call each entity kind draws ids from its
own counter starting at 1, formatted `PREFIX-n`; in the returned result the
epic ids are exactly `EPIC-1 .. EPIC-k` in order, the task ids are exactly
`TASK-1 .. TASK-m` in order, the story ids are strictly increasing in
creation order, and ids of each kind are pairwise distinct.  (Story numbering
need not begin at 1: orphan `- Story:` headers consume counter values.) -/
theorem parse_id_assignment (outline : String) :
    ((_parse_outline_to_models outline).1.map Epic.id
        = (List.range' 1 (_parse_outline_to_models outline).1.length).map
            (_generate_id "EPIC"))
    ∧ (∃ nums : List Nat,
        ((((_parse_outline_to_models outline).1.map Epic.stories).flatten).map Story.id
            = nums.map (_generate_id "STORY"))
        ∧ nums.Chain' (· < ·) ∧ ∀ n ∈ nums, 1 ≤ n)
    ∧ ((_parse_outline_to_models outline).2.map Task.id
        = (List.range' 1 (_parse_outline_to_models outline).2.length).map
            (_generate_id "TASK"))
    ∧ ((_parse_outline_to_models outline).1.map Epic.id).Nodup
    ∧ ((((_parse_outline_to_models outline).1.map Epic.stories).flatten).map Story.id).Nodup
    ∧ ((_parse_outline_to_models outline).2.map Task.id).Nodup := by
  unfold _parse_outline_to_models
  simp only []
  set stT := (pySplitlines outline.data).foldl processLine initState with hstT
  have hinv : LoopInv stT := foldl_inv _ _ loopInv_init
  have hids := closeEnd_epic_ids stT hinv
  obtain ⟨nums, hs1, hs2, hs3⟩ := closeEnd_story_ids stT hinv
  have hlen : (closeEnd stT).length = stT.ec - 1 := by
    have h := congrArg List.length hids
    simpa using h
  obtain ⟨m, ht1, ht2⟩ := synthEpics_task_ids (closeEnd stT) 1
  have hnd_nums : nums.Nodup :=
    (List.chain'_iff_pairwise.mp hs2).imp (fun h => Nat.ne_of_lt h)
  split
  · rename_i hemp
    have hnil : (synthTasksForEpics (closeEnd stT) 1).1 = [] :=
      List.isEmpty_iff.mp hemp
    have hCE : closeEnd stT = [] := by
      have h := synthEpics_length (closeEnd stT) 1
      rw [hnil] at h
      exact List.length_eq_zero.mp h.symm
    have hec1 : stT.ec = 1 := by
      rw [hCE] at hlen
      have := hinv.ecPos
      simp at hlen
      omega
    have hsyn : (synthTasksForEpics (closeEnd stT) 1).2.2 = 1 := by
      rw [hCE]
      rfl
    refine ⟨?_, ⟨[stT.sc], ?_, List.chain'_singleton _, ?_⟩, ?_, ?_, ?_, ?_⟩
    · simp [hec1, List.range']
    · simp
    · intro n hn
      have hn' : n = stT.sc := by simpa using hn
      rw [hn']
      exact hinv.scPos
    · simp [hsyn, List.range']
    · simp
    · simp
    · simp
  · rename_i hemp
    refine ⟨?_, ⟨nums, ?_, hs2, fun n hn => (hs3 n hn).1⟩, ?_, ?_, ?_, ?_⟩
    · have h1 := synthEpics_epic_ids (closeEnd stT) 1
      have h2 : (synthTasksForEpics (closeEnd stT) 1).1.length
          = stT.ec - 1 := by
        rw [synthEpics_length]
        exact hlen
      rw [h1, h2]
      exact hids
    · rw [synthEpics_story_ids]
      exact hs1
    · have hm : (synthTasksForEpics (closeEnd stT) 1).2.1.length = m := by
        have h := congrArg List.length ht1
        simpa using h
      rw [hm]
      exact ht1
    · have h1 := synthEpics_epic_ids (closeEnd stT) 1
      rw [h1, hids]
      exact (List.nodup_range' _ _).map (generate_id_injective "EPIC")
    · rw [synthEpics_story_ids, hs1]
      exact hnd_nums.map (generate_id_injective "STORY")
    · rw [ht1]
      exact (List.nodup_range' _ _).map (generate_id_injective "TASK")

/-- C8 counterexample to "beginning at 1": an orphan `- Story:` header
consumes `STORY-1`, so the (fallback) result's only story is `STORY-2`. -/
theorem parse_id_assignment_counterexample :
    ((((_parse_outline_to_models "- Story: A").1.map Epic.stories).flatten).map Story.id)
      = ["STORY-2"] := by
  rfl

/-- C10: a legacy `- Story:` header with no open epic creates a story that
consumes a story-counter value but is never committed: every story in any
returned result has a non-empty `epic_id` (equal to its containing epic's
id), while orphan stories carry `epic_id = ""`; concretely, after the orphan
`- Story: A` the committed story `B` gets `STORY-2` and `STORY-1` never
appears in the output. -/
theorem orphan_story_discarded :
    (∀ (outline : String), ∀ e ∈ (_parse_outline_to_models outline).1, ∀ s ∈ e.stories,
        s.epic_id = e.id ∧ s.epic_id ≠ "")
    ∧ (((_parse_outline_to_models "- Story: A\nEPIC: X\n  STORY: B").1.map
          (fun e => e.stories.map Story.id)) = [["STORY-2"]]) := by
  constructor
  · intro outline
    unfold _parse_outline_to_models
    simp only []
    set stT := (pySplitlines outline.data).foldl processLine initState with hstT
    have hinv : LoopInv stT := foldl_inv _ _ loopInv_init
    have hids := closeEnd_epic_ids stT hinv
    split
    · intro e he s hs
      simp only [List.mem_singleton] at he
      subst he
      simp only [List.mem_singleton] at hs
      subst hs
      exact ⟨rfl, generate_id_ne_empty "EPIC" stT.ec⟩
    · intro e he s hs
      have href := synthEpics_refs (closeEnd stT) 1 (closeEnd_refs stT hinv) e he s hs
      refine ⟨href, ?_⟩
      rw [href]
      have hmem : e.id ∈ (synthTasksForEpics (closeEnd stT) 1).1.map Epic.id :=
        List.mem_map_of_mem Epic.id he
      rw [synthEpics_epic_ids, hids] at hmem
      simp only [List.mem_map] at hmem
      obtain ⟨n, _, hn⟩ := hmem
      rw [← hn]
      exact generate_id_ne_empty "EPIC" n
  · rfl

theorem orphan_story_discarded_witness :
    (((_parse_outline_to_models "EPIC: X\n  STORY: B").1.get ⟨0, by decide⟩).stories.get
        ⟨0, by decide⟩).epic_id
      = ((_parse_outline_to_models "EPIC: X\n  STORY: B").1.get ⟨0, by decide⟩).id
    ∧ (((_parse_outline_to_models "EPIC: X\n  STORY: B").1.get ⟨0, by decide⟩).stories.get
        ⟨0, by decide⟩).epic_id ≠ "" :=
  orphan_story_discarded.1 "EPIC: X\n  STORY: B" _ (List.get_mem _ _ _) _ (List.get_mem _ _ _)

/-! ### Tagged-dialect epic counting -/

theorem epic_head_not_story_head (l : List Char)
    (h : startsWith "EPIC:" l = true) : startsWith "STORY:" l = false := by
  rcases l with _ | ⟨c, rest⟩
  · simp [startsWith] at h
  · simp only [startsWith, List.isPrefixOf] at h ⊢
    simp at h
    obtain ⟨hc, -⟩ := h
    subst hc
    simp [show ('S' == 'E') = false from rfl]

theorem processLine_epic_line (st : PState) (raw : List Char)
    (h : startsWith "EPIC:" (pyStrip raw) = true) :
    epicCount (processLine st raw) = epicCount st + 1
    ∧ (processLine st raw).curEpic.isSome = true
    ∧ (processLine st raw).curStory = none := by
  rcases st with ⟨E, cE, cS, coll, temp, last, ec, sc⟩
  unfold processLine
  rw [if_pos h]
  cases cS with
  | none =>
    cases cE with
    | none => exact ⟨by simp [epicCount, closeStoryClearing], rfl, rfl⟩
    | some e => exact ⟨by simp [epicCount, closeStoryClearing], rfl, rfl⟩
  | some s =>
    cases cE with
    | none => exact ⟨by simp [epicCount, closeStoryClearing], rfl, rfl⟩
    | some e => exact ⟨by simp [epicCount, closeStoryClearing], rfl, rfl⟩

theorem processLine_story_line (st : PState) (raw : List Char)
    (hE : startsWith "EPIC:" (pyStrip raw) = false)
    (hS : startsWith "STORY:" (pyStrip raw) = true) :
    epicCount (processLine st raw)
        = epicCount st + (if st.curEpic = none then 1 else 0)
    ∧ (processLine st raw).curEpic.isSome = true := by
  rcases st with ⟨E, cE, cS, coll, temp, last, ec, sc⟩
  unfold processLine
  rw [if_neg (by simp [hE]), if_pos hS]
  cases cS with
  | none =>
    cases cE with
    | none => exact ⟨by simp [epicCount, closeStoryKeeping], rfl⟩
    | some e => exact ⟨by simp [epicCount, closeStoryKeeping], rfl⟩
  | some s =>
    cases cE with
    | none => exact ⟨by simp [epicCount, closeStoryKeeping], rfl⟩
    | some e => exact ⟨by simp [epicCount, closeStoryKeeping], rfl⟩

theorem processLine_tagged_other (st : PState) (raw : List Char)
    (hE : startsWith "EPIC:" (pyStrip raw) = false)
    (hS : startsWith "STORY:" (pyStrip raw) = false)
    (hN : matchesNumbered (pyStrip raw) = false)
    (hL : startsWith "- Story:" (pyStrip raw) = false)
    (hIT : st.curEpic = none → st.curStory = none) :
    epicCount (processLine st raw) = epicCount st
    ∧ ((processLine st raw).curEpic = none ↔ st.curEpic = none)
    ∧ ((processLine st raw).curEpic = none → (processLine st raw).curStory = none) := by
  rcases st with ⟨E, cE, cS, coll, temp, last, ec, sc⟩
  simp only [] at hIT
  cases cE with
  | none =>
    have hcS : cS = none := hIT rfl
    subst hcS
    rw [processLine_nonheader _ raw rfl rfl (by simp [isHeaderLine, hE, hS, hN, hL])]
    exact ⟨rfl, Iff.rfl, fun _ => rfl⟩
  | some e =>
    cases cS with
    | none =>
      unfold processLine
      rw [if_neg (by simp [hE]), if_neg (by simp [hS]), if_neg (by simp [hN])]
      split_ifs <;>
        first
          | (exfalso; simp_all; done)
          | exact ⟨by by_cases hc9 : pyStrip (pyLStrip "-" (pyStrip raw)) = [] <;>
                simp [hc9, epicCount, closeStoryKeeping],
              by by_cases hc9 : pyStrip (pyLStrip "-" (pyStrip raw)) = [] <;>
                simp [hc9, closeStoryKeeping],
              by by_cases hc9 : pyStrip (pyLStrip "-" (pyStrip raw)) = [] <;>
                simp [hc9, closeStoryKeeping]⟩
    | some s =>
      unfold processLine
      rw [if_neg (by simp [hE]), if_neg (by simp [hS]), if_neg (by simp [hN])]
      split_ifs <;>
        first
          | (exfalso; simp_all; done)
          | exact ⟨by by_cases hc9 : pyStrip (pyLStrip "-" (pyStrip raw)) = [] <;>
                simp [hc9, epicCount, closeStoryKeeping],
              by by_cases hc9 : pyStrip (pyLStrip "-" (pyStrip raw)) = [] <;>
                simp [hc9, closeStoryKeeping],
              by by_cases hc9 : pyStrip (pyLStrip "-" (pyStrip raw)) = [] <;>
                simp [hc9, closeStoryKeeping]⟩

theorem gLead_cons_epic (l : List Char) (ls : List (List Char))
    (hE : startsWith "EPIC:" (pyStrip l) = true) : gLead (l :: ls) = 0 := by
  unfold gLead
  rw [List.find?_cons_of_pos _ (by simp [isTaggedHeader, hE])]
  simp [epic_head_not_story_head _ hE]

theorem gLead_cons_story (l : List Char) (ls : List (List Char))
    (hS : startsWith "STORY:" (pyStrip l) = true) : gLead (l :: ls) = 1 := by
  unfold gLead
  rw [List.find?_cons_of_pos _ (by simp [isTaggedHeader, hS])]
  simp [hS]

theorem gLead_cons_other (l : List Char) (ls : List (List Char))
    (hE : startsWith "EPIC:" (pyStrip l) = false)
    (hS : startsWith "STORY:" (pyStrip l) = false) : gLead (l :: ls) = gLead ls := by
  unfold gLead
  rw [List.find?_cons_of_neg _ (by simp [isTaggedHeader, hE, hS])]

theorem closeEnd_length (st : PState) : (closeEnd st).length = epicCount st := by
  rcases st with ⟨E, cE, cS, coll, temp, last, ec, sc⟩
  cases cE <;> cases cS <;> simp [closeEnd, closeEndState, epicCount]

theorem tagged_fold_count :
    ∀ (lines : List (List Char)) (st : PState),
      (∀ l ∈ lines, matchesNumbered (pyStrip l) = false
          ∧ startsWith "- Story:" (pyStrip l) = false) →
      (st.curEpic = none → st.curStory = none) →
      epicCount (lines.foldl processLine st)
          = epicCount st + countELines lines
            + (if st.curEpic = none then gLead lines else 0)
      ∧ ((lines.foldl processLine st).curEpic = none
          ↔ (st.curEpic = none ∧ ∀ l ∈ lines, isTaggedHeader l = false))
      ∧ ((lines.foldl processLine st).curEpic = none
          → (lines.foldl processLine st).curStory = none) := by
  intro lines
  induction lines with
  | nil =>
    intro st _ hIT
    refine ⟨?_, by simp, hIT⟩
    by_cases hcE : st.curEpic = none <;>
      simp [countELines, gLead, hcE]
  | cons l ls ih =>
    intro st hdial hIT
    have hdl := hdial l (by simp)
    have hdrest : ∀ x ∈ ls, matchesNumbered (pyStrip x) = false
        ∧ startsWith "- Story:" (pyStrip x) = false :=
      fun x hx => hdial x (by simp [hx])
    rw [List.foldl_cons]
    by_cases hEl : startsWith "EPIC:" (pyStrip l) = true
    · obtain ⟨hcnt, hsome, hstory⟩ := processLine_epic_line st l hEl
      have hplnone : ¬ (processLine st l).curEpic = none := by
        intro hh
        rw [hh] at hsome
        simp at hsome
      obtain ⟨c1, c2, c3⟩ := ih (processLine st l) hdrest (fun _ => hstory)
      refine ⟨?_, ?_, c3⟩
      · rw [c1, hcnt, if_neg hplnone]
        have hcE : countELines (l :: ls) = countELines ls + 1 := by
          simp [countELines, List.filter_cons, hEl]
        rw [hcE, gLead_cons_epic l ls hEl]
        by_cases hst : st.curEpic = none <;> simp [hst] <;> omega
      · rw [c2]
        constructor
        · rintro ⟨hno, -⟩
          exact absurd hno hplnone
        · rintro ⟨-, hall⟩
          have h0 := hall l (by simp)
          simp [isTaggedHeader, hEl] at h0
    · have hEl' : startsWith "EPIC:" (pyStrip l) = false := by simpa using hEl
      by_cases hSl : startsWith "STORY:" (pyStrip l) = true
      · obtain ⟨hcnt, hsome⟩ := processLine_story_line st l hEl' hSl
        have hplnone : ¬ (processLine st l).curEpic = none := by
          intro hh
          rw [hh] at hsome
          simp at hsome
        obtain ⟨c1, c2, c3⟩ := ih (processLine st l) hdrest
          (fun hno => absurd hno hplnone)
        refine ⟨?_, ?_, c3⟩
        · rw [c1, hcnt, if_neg hplnone]
          have hcE : countELines (l :: ls) = countELines ls := by
            simp [countELines, List.filter_cons, hEl']
          rw [hcE, gLead_cons_story l ls hSl]
          by_cases hst : st.curEpic = none <;> first | (simp [hst]; omega) | simp [hst]
        · rw [c2]
          constructor
          · rintro ⟨hno, -⟩
            exact absurd hno hplnone
          · rintro ⟨-, hall⟩
            have h0 := hall l (by simp)
            simp [isTaggedHeader, hSl] at h0
      · have hSl' : startsWith "STORY:" (pyStrip l) = false := by simpa using hSl
        obtain ⟨hcnt, hiff, hit'⟩ :=
          processLine_tagged_other st l hEl' hSl' hdl.1 hdl.2 hIT
        obtain ⟨c1, c2, c3⟩ := ih (processLine st l) hdrest hit'
        refine ⟨?_, ?_, c3⟩
        · rw [c1, hcnt]
          have hcE : countELines (l :: ls) = countELines ls := by
            simp [countELines, List.filter_cons, hEl']
          rw [hcE, gLead_cons_other l ls hEl' hSl']
          by_cases hst : st.curEpic = none
          · rw [if_pos hst, if_pos (hiff.mpr hst)]
          · rw [if_neg hst, if_neg (fun hh => hst (hiff.mp hh))]
        · rw [c2]
          have htag : isTaggedHeader l = false := by
            simp [isTaggedHeader, hEl', hSl']
          constructor
          · rintro ⟨hno, hall⟩
            exact ⟨hiff.mp hno, by
              intro x hx
              rcases List.mem_cons.mp hx with hx | hx
              · rw [hx]
                exact htag
              · exact hall x hx⟩
          · rintro ⟨hno, hall⟩
            exact ⟨hiff.mpr hno, fun x hx => hall x (by simp [hx])⟩

/-- C4 (amended): for a tagged-dialect outline (no numbered-epic lines, no
`- Story:` lines) containing at least one `EPIC:` or `STORY:` header, the
number of returned epics equals the number of `EPIC:` lines plus one exactly
when the first tagged header is a `STORY:` line (the auto-created placeholder
epic titled "General"); and every story's `epic_id` back-reference equals the
id of the epic that contains it. -/
theorem tagged_epic_count (outline : String)
    (hdial : ∀ l ∈ pySplitlines outline.data,
        matchesNumbered (pyStrip l) = false ∧ startsWith "- Story:" (pyStrip l) = false)
    (hhdr : ∃ l ∈ pySplitlines outline.data, isTaggedHeader l = true) :
    (_parse_outline_to_models outline).1.length
        = countEpicLines outline + gLead (pySplitlines outline.data)
    ∧ (∀ e ∈ (_parse_outline_to_models outline).1, ∀ s ∈ e.stories,
        s.epic_id = e.id) := by
  obtain ⟨hcount, hiff, -⟩ :=
    tagged_fold_count (pySplitlines outline.data) initState hdial (fun _ => rfl)
  have hcount' : epicCount ((pySplitlines outline.data).foldl processLine initState)
      = countELines (pySplitlines outline.data) + gLead (pySplitlines outline.data) := by
    rw [hcount]
    simp [initState, epicCount]
  have hpos : 0 < countELines (pySplitlines outline.data)
      + gLead (pySplitlines outline.data) := by
    obtain ⟨l0, hl0, htag⟩ := hhdr
    by_cases hS0 : startsWith "STORY:" (pyStrip l0) = true
    · rcases hf : (pySplitlines outline.data).find? isTaggedHeader with _ | l1
      · exfalso
        have h9 := List.find?_eq_none.mp hf l0 hl0
        exact h9 htag
      · have h1 := List.find?_some hf
        unfold gLead
        rw [hf]
        by_cases hS1 : startsWith "STORY:" (pyStrip l1) = true
        · simp only [hS1, if_true]
          omega
        · have hE1 : startsWith "EPIC:" (pyStrip l1) = true := by
            simp only [isTaggedHeader, Bool.or_eq_true] at h1
            rcases h1 with h1 | h1
            · exact h1
            · exact absurd h1 hS1
          have hmem : l1 ∈ (pySplitlines outline.data).filter
              (fun l => startsWith "EPIC:" (pyStrip l)) :=
            List.mem_filter.mpr ⟨List.mem_of_find?_eq_some hf, hE1⟩
          have hlen : 0 < countELines (pySplitlines outline.data) :=
            List.length_pos.mpr (fun hnil => by rw [hnil] at hmem; simp at hmem)
          omega
    · have hE0 : startsWith "EPIC:" (pyStrip l0) = true := by
        simp only [isTaggedHeader, Bool.or_eq_true] at htag
        rcases htag with h | h
        · exact h
        · exact absurd h hS0
      have hmem : l0 ∈ (pySplitlines outline.data).filter
          (fun l => startsWith "EPIC:" (pyStrip l)) :=
        List.mem_filter.mpr ⟨hl0, hE0⟩
      have hlen : 0 < countELines (pySplitlines outline.data) :=
        List.length_pos.mpr (fun hnil => by rw [hnil] at hmem; simp at hmem)
      omega
  constructor
  · unfold _parse_outline_to_models
    simp only []
    set stT := (pySplitlines outline.data).foldl processLine initState with hstT
    have hCElen : (closeEnd stT).length
        = countELines (pySplitlines outline.data)
          + gLead (pySplitlines outline.data) := by
      rw [closeEnd_length]
      exact hcount'
    split
    · rename_i hemp
      exfalso
      have hnil : (synthTasksForEpics (closeEnd stT) 1).1 = [] :=
        List.isEmpty_iff.mp hemp
      have hCE : closeEnd stT = [] := by
        have h := synthEpics_length (closeEnd stT) 1
        rw [hnil] at h
        exact List.length_eq_zero.mp h.symm
      rw [hCE] at hCElen
      simp at hCElen
      omega
    · show (synthTasksForEpics (closeEnd stT) 1).1.length = _
      rw [synthEpics_length, hCElen]
      rfl
  · intro e he s hs
    unfold _parse_outline_to_models at he
    simp only [] at he
    set stT := (pySplitlines outline.data).foldl processLine initState with hstT
    have hinv : LoopInv stT := foldl_inv _ _ loopInv_init
    rcases hsp : (synthTasksForEpics (closeEnd stT) 1).1.isEmpty with _ | _
    · rw [hsp] at he
      simp only [Bool.false_eq_true, if_false] at he
      exact synthEpics_refs (closeEnd stT) 1 (closeEnd_refs stT hinv) e he s hs
    · exfalso
      have hnil : (synthTasksForEpics (closeEnd stT) 1).1 = [] :=
        List.isEmpty_iff.mp hsp
      have hCE : closeEnd stT = [] := by
        have h := synthEpics_length (closeEnd stT) 1
        rw [hnil] at h
        exact List.length_eq_zero.mp h.symm
      have hCElen : (closeEnd stT).length
          = countELines (pySplitlines outline.data)
            + gLead (pySplitlines outline.data) := by
        rw [closeEnd_length]
        exact hcount'
      rw [hCE] at hCElen
      simp at hCElen
      omega

theorem tagged_epic_count_witness :
    (∀ l ∈ pySplitlines ("EPIC: A\n  STORY: B\nEPIC: C" : String).data,
        matchesNumbered (pyStrip l) = false ∧ startsWith "- Story:" (pyStrip l) = false)
    ∧ (∃ l ∈ pySplitlines ("EPIC: A\n  STORY: B\nEPIC: C" : String).data,
        isTaggedHeader l = true)
    ∧ (_parse_outline_to_models "EPIC: A\n  STORY: B\nEPIC: C").1.length
        = countEpicLines "EPIC: A\n  STORY: B\nEPIC: C"
          + gLead (pySplitlines ("EPIC: A\n  STORY: B\nEPIC: C" : String).data) :=
  ⟨by decide, by decide,
   (tagged_epic_count "EPIC: A\n  STORY: B\nEPIC: C" (by decide) (by decide)).1⟩

/-- C4 counterexample to the claim as stated: the outline `"STORY: X"` is in
the tagged dialect, has zero `EPIC:` lines, yet parse returns one epic (the
auto-created placeholder titled "General"). -/
theorem tagged_epic_count_counterexample :
    countEpicLines "STORY: X" = 0
    ∧ (_parse_outline_to_models "STORY: X").1.length = 1
    ∧ ((_parse_outline_to_models "STORY: X").1.map Epic.title) = ["General"] := by
  refine ⟨rfl, rfl, rfl⟩

/-! ### Acceptance-criteria accumulation (legacy dialect, lines 274-331) -/

theorem dash_head (l : List Char) (h : startsWith "-" l = true) :
    ∃ t, l = '-' :: t := by
  rcases l with _ | ⟨c, rest⟩
  · simp [startsWith, List.isPrefixOf] at h
  · simp only [startsWith, List.isPrefixOf] at h
    simp at h
    subst h
    exact ⟨rest, rfl⟩

theorem story_legacy_head (l : List Char) (h : startsWith "- Story:" l = true) :
    ∃ t, l = '-' :: t := by
  rcases l with _ | ⟨c, rest⟩
  · simp [startsWith, List.isPrefixOf] at h
  · simp only [startsWith, List.isPrefixOf] at h
    simp at h
    obtain ⟨hc, -⟩ := h
    subst hc
    exact ⟨rest, rfl⟩

theorem head_facts_dash (t : List Char) :
    startsWith "EPIC:" ('-' :: t) = false
    ∧ startsWith "STORY:" ('-' :: t) = false
    ∧ matchesNumbered ('-' :: t) = false
    ∧ startsWith "Description:" ('-' :: t) = false
    ∧ startsWith "Acceptance criteria:" ('-' :: t) = false := by
  have hdg : ('-'.isDigit) = false := by decide
  refine ⟨?_, ?_, ?_, ?_, ?_⟩
  · simp [startsWith, List.isPrefixOf, show ('E' == '-') = false from rfl]
  · simp [startsWith, List.isPrefixOf, show ('S' == '-') = false from rfl]
  · simp [matchesNumbered, List.takeWhile_cons, hdg]
  · simp [startsWith, List.isPrefixOf, show ('D' == '-') = false from rfl]
  · simp [startsWith, List.isPrefixOf, show ('A' == '-') = false from rfl]

theorem not_dash_longer (l : List Char) (h : startsWith "-" l = false) :
    startsWith "- " l = false ∧ startsWith "- Story:" l = false := by
  rcases l with _ | ⟨c, rest⟩
  · simp [startsWith, List.isPrefixOf]
  · simp only [startsWith, List.isPrefixOf] at h ⊢
    simp at h
    constructor <;> simp [h]

/-- C5 (amended): during an acceptance-criteria block, a dash line whose
stripped remainder is non-empty appends exactly that remainder to the
accumulated criteria; a line matching no branch (non-dash, non-header, not
`Description:`/`Acceptance criteria:`) leaves the whole parser state —
including the collecting flag and the accumulated criteria — unchanged, so
accumulation does NOT stop at the first non-dash line; and a `- Story:` header
flushes exactly the accumulated criteria into the story being closed while the
newly opened story starts with empty criteria, so criteria never bleed into a
subsequent story. -/
theorem criteria_accumulation (st : PState) (raw : List Char) (s : Story) :
    (startsWith "-" (pyStrip raw) = true →
     startsWith "- Story:" (pyStrip raw) = false →
     st.collecting = true →
     st.curStory.isSome = true →
     st.lastLineWasEpicTitle = false →
     (pyStrip (pyLStrip "-" (pyStrip raw))).isEmpty = false →
     processLine st raw
       = { st with tempCriteria :=
             st.tempCriteria ++ [(pyStrip (pyLStrip "-" (pyStrip raw))).asString] })
    ∧ (startsWith "EPIC:" (pyStrip raw) = false →
       startsWith "STORY:" (pyStrip raw) = false →
       matchesNumbered (pyStrip raw) = false →
       startsWith "-" (pyStrip raw) = false →
       startsWith "Description:" (pyStrip raw) = false →
       startsWith "Acceptance criteria:" (pyStrip raw) = false →
       processLine st raw = st)
    ∧ (startsWith "- Story:" (pyStrip raw) = true →
       st.lastLineWasEpicTitle = false →
       st.curStory = some s →
       (processLine st raw).collecting = false
       ∧ (processLine st raw).tempCriteria = []
       ∧ (∃ s2, (processLine st raw).curStory = some s2 ∧ s2.acceptance_criteria = [])
       ∧ (∀ e, st.curEpic = some e →
           (processLine st raw).curEpic
             = some { e with stories :=
                 e.stories ++ [{ s with acceptance_criteria := st.tempCriteria }] })) := by
  rcases st with ⟨E, cE, cS, coll, temp, last, ec, sc⟩
  refine ⟨?_, ?_, ?_⟩
  · intro hd hns hcoll hsome hlast hne
    simp only [] at hcoll hsome hlast
    subst hcoll
    subst hlast
    obtain ⟨t, ht⟩ := dash_head _ hd
    obtain ⟨f1, f2, f3, f4, f5⟩ := head_facts_dash t
    unfold processLine
    rw [ht]
    rw [if_neg (by simp [f1]), if_neg (by simp [f2]), if_neg (by simp [f3])]
    rw [if_neg (by simp)]
    rw [if_neg (by simp [ht ▸ hns])]
    rw [if_neg (by simp [f4]), if_neg (by simp [f5])]
    rw [if_pos (by simp [ht ▸ hd, hsome])]
    rw [if_pos (by simp [ht ▸ hne])]
  · intro hE hS hN hdash hD hA
    obtain ⟨g1, g2⟩ := not_dash_longer _ hdash
    unfold processLine
    rw [if_neg (by simp [hE]), if_neg (by simp [hS]), if_neg (by simp [hN])]
    rw [if_neg (by simp [g1]), if_neg (by simp [g2])]
    rw [if_neg (by simp [hD]), if_neg (by simp [hA]), if_neg (by simp [hdash])]
  · intro hSt hlast hs
    simp only [] at hlast hs
    subst hlast
    subst hs
    obtain ⟨t, ht⟩ := story_legacy_head _ hSt
    obtain ⟨f1, f2, f3, -, -⟩ := head_facts_dash t
    unfold processLine
    rw [ht]
    rw [if_neg (by simp [f1]), if_neg (by simp [f2]), if_neg (by simp [f3])]
    rw [if_neg (by simp)]
    rw [if_pos (ht ▸ hSt)]
    cases cE with
    | none =>
      refine ⟨rfl, by simp [closeStoryKeeping], ⟨_, rfl, rfl⟩, ?_⟩
      intro e he
      exact absurd he (by simp)
    | some e0 =>
      refine ⟨rfl, by simp [closeStoryKeeping], ⟨_, rfl, rfl⟩, ?_⟩
      intro e he
      rw [Option.some.inj he] at *
      simp [closeStoryKeeping]

theorem criteria_accumulation_witness :
    (processLine collectingState ("- b".data)).tempCriteria = ["a", "b"]
    ∧ processLine collectingState ("note".data) = collectingState
    ∧ (processLine collectingState ("- Story: T".data)).tempCriteria = []
    ∧ (processLine collectingState ("- Story: T".data)).collecting = false := by
  have h1 := (criteria_accumulation collectingState ("- b".data) collectingStory).1
    (by decide) (by decide) rfl rfl rfl (by decide)
  have h3 := (criteria_accumulation collectingState ("- Story: T".data) collectingStory).2.2
    (by decide) rfl rfl
  refine ⟨?_,
    (criteria_accumulation collectingState ("note".data) collectingStory).2.1
      (by decide) (by decide) (by decide) (by decide) (by decide) (by decide),
    h3.2.1, h3.1⟩
  rw [h1]
  rfl

/-- C5 counterexample to the claim as stated: in the outline
`"1. E\n- desc\n- Story: S\nAcceptance criteria:\n- a\nnote\n- b"` the non-dash
line `note` does not stop the accumulation block, so the dash line after it is
still collected and the single story's criteria are `["a", "b"]`, not `["a"]`
as stop-at-first-non-dash would demand. -/
theorem criteria_accumulation_counterexample :
    ((_parse_outline_to_models
        "1. E\n- desc\n- Story: S\nAcceptance criteria:\n- a\nnote\n- b").1.map
      (fun e => e.stories.map Story.acceptance_criteria)) = [[["a", "b"]]] := by
  rfl

end PlanCreation
